import Mathlib

/-!
Verification of `matrixMul.c`.

Shallow embedding of `src/matrixMul.c` (naive dense matrix multiply benchmark) and proofs
about the kernel `matrixMulCPU`, the initialiser `constantInit`, the driver
`matrixMultiply` and `main`.

Conventions of the embedding.

* A C buffer (`float *`) is a `List α`; an access outside the buffer is undefined
  behaviour and makes the embedded function return `none`.
* A C `int` is an `Int`; an `int` operation whose mathematical result does not fit
  in 32 bits (signed overflow, undefined behaviour in C) yields `none`.
* A C `unsigned int` is a `Nat`, every operation reduced modulo `2 ^ 32`.
* The conversions between `unsigned int` and `int` are the two's-complement ones.
* `malloc` is an oracle (`Heap`): each of the six calls either fails or returns a block
  of `bytes / sizeof(float)` floats with arbitrary content.
* `float` and `double` arithmetic is a parameter. The kernel is polymorphic in the
  element type and only uses `0`, `+` and `*`, in the order the C code applies them; the
  driver takes the remaining operations in a record `FloatArith`. Two interpretations are
  given: exact arithmetic on rationals with the IEEE 754 results of a division by zero
  (`exactArith`), and IEEE 754 binary32 / binary64 arithmetic rounding to nearest, ties
  to even, on the normal range (`ieeeArith`).
* Measured times (`clock`) and the formatting of numbers by `printf` are not modelled.
-/

namespace MatrixMul

/-! ## Machine integers -/

/-- Largest value of a C `int` (32 bits). -/
def INT_MAX : Int := 2147483647

/-- Smallest value of a C `int` (32 bits). -/
def INT_MIN : Int := -2147483648

/-- Number of values of a C `unsigned int` (32 bits). -/
def UINT_RANGE : Nat := 4294967296

/-- Result of an `int` operation whose mathematical value is `z`: defined only
when `z` is representable. -/
def intChecked (z : Int) : Option Int :=
  if INT_MIN ≤ z ∧ z ≤ INT_MAX then some z else none

/-- The C expression `a * b + c` on `int` operands. -/
def mulAddInt (a b c : Int) : Option Int :=
  (intChecked (a * b)).bind fun p => intChecked (p + c)

/-- Reduction of a natural number to an `unsigned int`. -/
def wrapUInt (n : Nat) : Nat := n % UINT_RANGE

/-- Conversion of an `unsigned int` value to `int` (two's complement). -/
def intOfUInt (n : Nat) : Int :=
  if (n % UINT_RANGE : Nat) < 2147483648 then ((n % UINT_RANGE : Nat) : Int)
  else ((n % UINT_RANGE : Nat) : Int) - 4294967296

/-- Conversion of an `int` value to `unsigned int`. -/
def uintOfInt (z : Int) : Nat := (z % 4294967296).toNat

/-! ## Buffers and loops -/

/-- The C read `buf[p]` with an `int` index. -/
def readAt {α : Type} (buf : List α) (p : Int) : Option α :=
  if 0 ≤ p then buf[p.toNat]? else none

/-- The C write `buf[p] = v` with an `int` index. -/
def writeAt {α : Type} (buf : List α) (p : Int) (v : α) : Option (List α) :=
  if 0 ≤ p ∧ p.toNat < buf.length then some (buf.set p.toNat v) else none

/-- The loop `for (i = lo; i < lo + n; i++) body`, threading the state `s`;
a failing iteration makes the whole loop fail. -/
def forLoop {σ : Type} (body : Nat → σ → Option σ) : Nat → Nat → σ → Option σ
  | 0, _, s => some s
  | n + 1, i, s => (body i s).bind (forLoop body n (i + 1))

/-! ## `constantInit` (lines 26-31) -/

/-- Embedding of `void constantInit(float *data, int size, float val)`:
`for (int i = 0; i < size; ++i) data[i] = val;`. -/
def constantInit {α : Type} (data : List α) (size : Int) (val : α) : Option (List α) :=
  forLoop (fun i d => writeAt d (i : Int) val) size.toNat 0 data


/-! ## `matrixMulCPU` (lines 13-24) -/

/-- One memory access of the kernel, with the `int` index it used. -/
inductive Access where
  | readA (p : Int)
  | readB (p : Int)
  | writeC (p : Int)
  deriving DecidableEq, Repr

/-- Indices written to `C`, in program order. -/
def writesOf : List Access → List Int
  | [] => []
  | Access.writeC p :: l => p :: writesOf l
  | _ :: l => writesOf l

/-- Every logged read of `A` lies in `[0, szA)` and every logged read of `B` in `[0, szB)`. -/
def ReadsWithin (szA szB : Int) (log : List Access) : Prop :=
  ∀ a ∈ log, match a with
    | Access.readA p => 0 ≤ p ∧ p < szA
    | Access.readB p => 0 ≤ p ∧ p < szB
    | Access.writeC _ => True

/-- Body of the `k` loop: `sum += A[i * wA + k] * B[k * wB + j];`.
The state is the accumulator `sum` and the access log. -/
def dotStep {α : Type} [Add α] [Mul α] (A B : List α) (wA wB : Int) (i j k : Nat)
    (s : α × List Access) : Option (α × List Access) :=
  (mulAddInt i wA k).bind fun pa =>
  (readAt A pa).bind fun a =>
  (mulAddInt k wB j).bind fun pb =>
  (readAt B pb).bind fun b =>
    some (s.1 + a * b, s.2 ++ [Access.readA pa, Access.readB pb])

/-- Body of the `j` loop: `float sum = 0; for (k ...) ...; C[i * wC + j] = sum;`.
The state is the buffer `C` and the access log. -/
def cellStep {α : Type} [Zero α] [Add α] [Mul α] (A B : List α) (wA wB wC : Int) (i j : Nat)
    (s : List α × List Access) : Option (List α × List Access) :=
  (forLoop (dotStep A B wA wB i j) wA.toNat 0 (0, s.2)).bind fun r =>
  (mulAddInt i wC j).bind fun pc =>
  (writeAt s.1 pc r.1).bind fun C' =>
    some (C', r.2 ++ [Access.writeC pc])

/-- Body of the `i` loop: `for (int j = 0; j < wC; j++) ...`. -/
def rowStep {α : Type} [Zero α] [Add α] [Mul α] (A B : List α) (wA wB wC : Int) (i : Nat)
    (s : List α × List Access) : Option (List α × List Access) :=
  forLoop (cellStep A B wA wB wC i) wC.toNat 0 s

/-- Embedding of `matrixMulCPU` that also returns the log of its memory accesses.
The parameter `hA` is unused, as in the source. -/
def matrixMulCPUTraced {α : Type} [Zero α] [Add α] [Mul α] (C A B : List α)
    (wA wB _hA wC hC : Int) : Option (List α × List Access) :=
  forLoop (rowStep A B wA wB wC) hC.toNat 0 (C, [])

/-- Embedding of
`void matrixMulCPU(float *C, float *A, float *B, int wA, int wB, int hA, int wC, int hC)`:
the content of `C` after the call. -/
def matrixMulCPU {α : Type} [Zero α] [Add α] [Mul α] (C A B : List α)
    (wA wB hA wC hC : Int) : Option (List α) :=
  (matrixMulCPUTraced C A B wA wB hA wC hC).map Prod.fst

/-- Specification side: the dot product of row `i` of `A` and column `j` of `B`,
accumulated left to right from `0`. -/
def dotProduct {α : Type} [Zero α] [Add α] [Mul α] (A B : List α) (wA wB i j : Nat) : α :=
  (List.range wA).foldl (fun s k => s + A.getD (i * wA + k) 0 * B.getD (k * wB + j) 0) 0

/-- State of the kernel once the first `n` cells of `C` (row-major) have been produced:
those cells hold their dot products, the others still hold what `C` held, every
logged read is inside its matrix and the writes so far are exactly `0, ..., n - 1`. -/
def KernelInv {α : Type} [Zero α] [Add α] [Mul α] (A B C : List α) (hA wA wB n : Nat)
    (s : List α × List Access) : Prop :=
  s.1.length = C.length ∧
  (∀ p : Nat, s.1[p]? =
    if p < n then some (dotProduct A B wA wB (p / wB) (p % wB)) else C[p]?) ∧
  ReadsWithin ((hA * wA : Nat) : Int) ((wA * wB : Nat) : Int) s.2 ∧
  writesOf s.2 = (List.range n).map Int.ofNat

/-- The value the `k` loop leaves in `sum` when every product `A[..] * B[..]` is `x`:
`x` added `k` times to `0`, one addition per iteration. -/
def accumulate {α : Type} [Zero α] [Add α] (x : α) (k : Nat) : α :=
  (List.range k).foldl (fun s _ => s + x) 0

/-- Relation between two runs of the kernel on the same `A`, `B` and dimensions but
different initial contents `C1`, `C2` of the output buffer, once `n` cells have been
produced: same log, same produced cells, the other cells untouched in both. -/
def KernelRel {α : Type} (C1 C2 : List α) (n : Nat)
    (s1 s2 : List α × List Access) : Prop :=
  s1.2 = s2.2 ∧ s1.1.length = C1.length ∧ s2.1.length = C2.length ∧
  (∀ p : Nat, p < n → s1.1[p]? = s2.1[p]?) ∧
  (∀ p : Nat, n ≤ p → s1.1[p]? = C1[p]? ∧ s2.1[p]? = C2[p]?)

/-- The driver's loop `for (j = 0; j < nIter; j++) matrixMulCPU(C, A, B, ...)`
(lines 95-97): the content of `C` after `nIter` calls. -/
def repeatKernel {α : Type} [Zero α] [Add α] [Mul α] (nIter : Nat) (C A B : List α)
    (wA wB hA wC hC : Int) : Option (List α) :=
  forLoop (fun _ c => matrixMulCPU c A B wA wB hA wC hC) nIter 0 C

/-! ## The driver `matrixMultiply` (lines 33-147) and `main` (lines 149-166) -/

/-- The C struct `dim3` : three `unsigned int` fields. -/
structure dim3 where
  x : Nat
  y : Nat
  z : Nat
  deriving DecidableEq, Repr

/-- Value of `sizeof(float)`. -/
def SIZEOF_FLOAT : Nat := 4

/-- Value of `EXIT_SUCCESS`. -/
def EXIT_SUCCESS : Int := 0

/-- Value of `EXIT_FAILURE`. -/
def EXIT_FAILURE : Int := 1

/-- The line `unsigned int size = d1 * d2;` (lines 35, 39, 43). -/
def elemCount (d1 d2 : Nat) : Nat := wrapUInt (d1 * d2)

/-- The line `unsigned int mem_size = sizeof(float) * size;` (lines 36, 40, 44): the
product is converted back to `unsigned int`. -/
def memSize (size : Nat) : Nat := wrapUInt (SIZEOF_FLOAT * size)

/-- The six allocations of one run, in program order. `none` is a `malloc` that returned
`NULL`; `some f` is a successful one, `f` giving the (arbitrary) initial content of the
new block. -/
structure Heap (F : Type) where
  h_A : Option (Nat → F)
  h_B : Option (Nat → F)
  h_C : Option (Nat → F)
  d_A : Option (Nat → F)
  d_B : Option (Nat → F)
  d_C : Option (Nat → F)

/-- The call `(float *)malloc(bytes)`: a block of `bytes / sizeof(float)` floats. -/
def mallocBuf {F : Type} (m : Option (Nat → F)) (bytes : Nat) : Option (List F) :=
  m.map fun f => (List.range (bytes / SIZEOF_FLOAT)).map f

/-- The call `memcpy(dst, src, bytes)` for a whole number of floats: the new content
of `dst`. Undefined when either block is shorter than `bytes`. -/
def memcpy {F : Type} (dst src : List F) (bytes : Nat) : Option (List F) :=
  if bytes / SIZEOF_FLOAT ≤ dst.length ∧ bytes / SIZEOF_FLOAT ≤ src.length then
    some (src.take (bytes / SIZEOF_FLOAT) ++ dst.drop (bytes / SIZEOF_FLOAT))
  else none

/-- The `float` and `double` operations the driver uses besides `0`, `+`, `*`, `-` on
`float`. They are parameters of the embedding: the theorems about control flow hold for
every interpretation, IEEE-754 arithmetic included. -/
structure FloatArith (F D : Type) where
  /-- The literal `1.0f`. -/
  one : F
  /-- The literal `0.01f` (`valB`). -/
  valB : F
  /-- Conversion `unsigned int → float`, as in `dimsA.x * valB`. -/
  ofUInt : Nat → F
  /-- Conversion `float → double` of an argument of `fabs`. -/
  toDouble : F → D
  /-- Conversion `unsigned int → double`, as in `double dot_length = dimsA.x`. -/
  dOfUInt : Nat → D
  /-- The function `fabs`. -/
  fabs : D → D
  /-- Division of two `double`. -/
  div : D → D → D
  /-- Comparison `>` of two `double`. -/
  gt : D → D → Bool
  /-- The literal `1.e-6` (`eps`). -/
  eps : D

/-- What the program prints. Formatted numbers are kept as values. -/
inductive Event (F : Type) where
  /-- A `printf` of a fixed text. -/
  | out (text : String)
  /-- A `fprintf(stderr, ...)` of a fixed text. -/
  | err (text : String)
  /-- The `Performance= ...` line (lines 107-112); the measured times are not modelled,
  `threads` is the printed `threads.x * threads.y`. -/
  | perf (threads : Nat)
  /-- The line `Error! Matrix[i]=actual, ref=expected error term is > eps` (line 125). -/
  | mismatch (i : Nat) (actual expected : F)

/-- Observable result of one run of `matrixMultiply`, with three observation counters:
the number of kernel calls made, the number of elements the check examined and the
final content of `h_C`. -/
structure Run (F : Type) where
  events : List (Event F)
  kernelCalls : Nat
  checked : Nat
  result : List F
  status : Int

/-- The path `fprintf(stderr, ...); exit(EXIT_FAILURE);` : the process ends at once. -/
def exitFailure {F : Type} (events : List (Event F)) : Run F :=
  { events := events, kernelCalls := 0, checked := 0, result := [], status := EXIT_FAILURE }

/-- The test of lines 119-124 on one element `c = h_C[i]`:
`fabs(c - dimsA.x * valB) / fabs(c) / (double)dimsA.x > eps`. -/
def exceedsTolerance {F D : Type} [Sub F] [Mul F] (ar : FloatArith F D) (dimsAx : Nat)
    (c : F) : Bool :=
  let abs_err := ar.fabs (ar.toDouble (c - ar.ofUInt dimsAx * ar.valB))
  let dot_length := ar.dOfUInt dimsAx
  let abs_val := ar.fabs (ar.toDouble c)
  let rel_err := ar.div (ar.div abs_err abs_val) dot_length
  ar.gt rel_err ar.eps

/-- One iteration of the check loop (lines 118-129), the increment `i++` that ends it
included. The state is the list of `Error!` lines printed so far and the flag `correct`.
The counter `i` is an `int` (compared with the `unsigned int` bound `size_C`), so the
increment is undefined once `i` is `INT_MAX`. -/
def checkStep {F D : Type} [Sub F] [Mul F] (ar : FloatArith F D) (h_C : List F)
    (dimsAx : Nat) (i : Nat) (s : List (Event F) × Bool) : Option (List (Event F) × Bool) :=
  (intChecked (i : Int)).bind fun p =>
  (readAt h_C p).bind fun c =>
  (intChecked (p + 1)).bind fun _ =>
    if exceedsTolerance ar dimsAx c then
      some (s.1 ++ [Event.mismatch i c (ar.ofUInt dimsAx * ar.valB)], false)
    else some s

/-- The check of lines 115-129: `bool correct = true; for (int i = 0; i < size_C; i++) ...`. -/
def checkResult {F D : Type} [Sub F] [Mul F] (ar : FloatArith F D) (h_C : List F)
    (size_C dimsAx : Nat) : Option (List (Event F) × Bool) :=
  forLoop (checkStep ar h_C dimsAx) size_C 0 ([], true)

/-- The kernel call of line 96, with the conversions `unsigned int → int` of its
arguments. -/
def driverKernelCall {F : Type} [Zero F] [Add F] [Mul F] (dimsA dimsB : dim3)
    (d_C d_A d_B : List F) : Option (List F × List Access) :=
  matrixMulCPUTraced d_C d_A d_B (intOfUInt dimsA.x) (intOfUInt dimsB.x) (intOfUInt dimsA.y)
    (intOfUInt dimsB.x) (intOfUInt dimsA.y)

/-- Number of iterations of the timing loop (`int nIter = 300;`). -/
def nIter : Nat := 300

/-- Lines 107-146 of `matrixMultiply`, once the check loop has returned `chk` (the
`Error!` lines and the flag `correct`): everything the run printed, and its status
`correct ? EXIT_SUCCESS : EXIT_FAILURE`. -/
def finishedRun {F D : Type} (_ar : FloatArith F D) (block_size : Int) (dimsA dimsB : dim3)
    (h_C : List F) (chk : List (Event F) × Bool) : Run F :=
  { events :=
      [Event.out "Allocating device memory on host...\n",
       Event.out "Copying input data\n",
       Event.out "Computing result using CPU...\n",
       Event.out "done\n",
       Event.out "Copying output data\n",
       Event.perf (wrapUInt (uintOfInt block_size * uintOfInt block_size)),
       Event.out "Checking computed result for correctness: "]
      ++ chk.1 ++
      [Event.out (if chk.2 then "Result = PASS\n" else "Result = FAIL\n"),
       Event.out "shutting down...\n"],
    kernelCalls := nIter,
    checked := elemCount dimsA.y dimsB.x,
    result := h_C,
    status := if chk.2 then EXIT_SUCCESS else EXIT_FAILURE }

/-- Lines 76-146 of `matrixMultiply`: what happens once the six blocks are allocated. -/
def benchmark {F D : Type} [Zero F] [Add F] [Mul F] [Sub F] (ar : FloatArith F D)
    (block_size : Int) (dimsA dimsB : dim3) (h_A h_B h_C d_A d_B d_C : List F) :
    Option (Run F) :=
  (memcpy d_A h_A (memSize (elemCount dimsA.x dimsA.y))).bind fun d_A =>
  (memcpy d_B h_B (memSize (elemCount dimsB.x dimsB.y))).bind fun d_B =>
  -- `threads.x = block_size; grid.x = dimsB.x / threads.x;` divides by `threads.x`
  if uintOfInt block_size = 0 then none else
  (repeatKernel nIter d_C d_A d_B (intOfUInt dimsA.x) (intOfUInt dimsB.x)
    (intOfUInt dimsA.y) (intOfUInt dimsB.x) (intOfUInt dimsA.y)).bind fun d_C =>
  (memcpy h_C d_C (memSize (elemCount dimsA.y dimsB.x))).bind fun h_C =>
  (checkResult ar h_C (elemCount dimsA.y dimsB.x) dimsA.x).bind fun chk =>
    some (finishedRun ar block_size dimsA dimsB h_C chk)

/-- Embedding of `int matrixMultiply(int argc, char **argv, int block_size, dim3 dimsA,
dim3 dimsB)`; `argc` and `argv` are not used by the source. `none` is a run with
undefined behaviour. -/
def matrixMultiply {F D : Type} [Zero F] [Add F] [Mul F] [Sub F] (ar : FloatArith F D)
    (heap : Heap F) (block_size : Int) (dimsA dimsB : dim3) : Option (Run F) :=
  match mallocBuf heap.h_A (memSize (elemCount dimsA.x dimsA.y)),
        mallocBuf heap.h_B (memSize (elemCount dimsB.x dimsB.y)),
        mallocBuf heap.h_C (memSize (elemCount dimsA.y dimsB.x)) with
  | some h_A, some h_B, some h_C =>
    (constantInit h_A (intOfUInt (elemCount dimsA.x dimsA.y)) ar.one).bind fun h_A =>
    (constantInit h_B (intOfUInt (elemCount dimsB.x dimsB.y)) ar.valB).bind fun h_B =>
    match mallocBuf heap.d_A (memSize (elemCount dimsA.x dimsA.y)) with
    | none =>
      some (exitFailure [Event.out "Allocating device memory on host...\n",
        Event.err "Failed to allocate device matrix A!\n"])
    | some d_A =>
      match mallocBuf heap.d_B (memSize (elemCount dimsB.x dimsB.y)) with
      | none =>
        some (exitFailure [Event.out "Allocating device memory on host...\n",
          Event.err "Failed to allocate device matrix B!\n"])
      | some d_B =>
        match mallocBuf heap.d_C (memSize (elemCount dimsA.y dimsB.x)) with
        | none =>
          some (exitFailure [Event.out "Allocating device memory on host...\n",
            Event.err "Failed to allocate device matrix C!\n"])
        | some d_C => benchmark ar block_size dimsA dimsB h_A h_B h_C d_A d_B d_C
  | _, _, _ => some (exitFailure [Event.err "Failed to allocate host matrix!\n"])

/-- The dimensions `main` passes: `block_size = 32`, `dimsA = (320, 320)`,
`dimsB = (640, 320)`. The field `z` is never set nor read; it is given the value 0. -/
def mainBlockSize : Int := 32

/-- The value of `dimsA` in `main`. -/
def mainDimsA : dim3 := { x := wrapUInt (5 * 2 * 32), y := wrapUInt (5 * 2 * 32), z := 0 }

/-- The value of `dimsB` in `main`. -/
def mainDimsB : dim3 := { x := wrapUInt (5 * 4 * 32), y := wrapUInt (5 * 2 * 32), z := 0 }

/-- Embedding of `main`: the exit status is the value `matrixMultiply` returns. -/
def main {F D : Type} [Zero F] [Add F] [Mul F] [Sub F] (ar : FloatArith F D)
    (heap : Heap F) : Option (Run F) :=
  (matrixMultiply ar heap mainBlockSize mainDimsA mainDimsB).map fun r =>
    { r with events :=
        [Event.out "[Matrix Multiply Using CPU] - Starting...\n",
         Event.out "MatrixA(320,320), MatrixB(640,320)\n"] ++ r.events }

/-- State of the check loop once the elements of index `< i` have been examined: they
could all be read, `correct` still holds exactly when none of them exceeded the
tolerance, and the `Error!` lines printed are those of the elements that did. -/
def CheckInv {F D : Type} [Sub F] [Mul F] (ar : FloatArith F D) (h_C : List F)
    (dimsAx : Nat) (i : Nat) (s : List (Event F) × Bool) : Prop :=
  (∀ k : Nat, k < i → ∃ c, h_C[k]? = some c) ∧
  (s.2 = true ↔ ∀ (k : Nat) (c : F), k < i → h_C[k]? = some c →
    exceedsTolerance ar dimsAx c = false) ∧
  (∀ (k : Nat) (c : F), k < i → h_C[k]? = some c → exceedsTolerance ar dimsAx c = true →
    Event.mismatch k c (ar.ofUInt dimsAx * ar.valB) ∈ s.1) ∧
  (∀ e ∈ s.1, ∃ (k : Nat) (c : F), e = Event.mismatch k c (ar.ofUInt dimsAx * ar.valB) ∧
    k < i ∧ h_C[k]? = some c ∧ exceedsTolerance ar dimsAx c = true)

/-! ## Allocation scenarios and diagnostics -/

/-- The six buffers `matrixMultiply` allocates. -/
inductive Buffer where
  | h_A | h_B | h_C | d_A | d_B | d_C
  deriving DecidableEq, Repr

/-- The buffers obtained by the first three `malloc` calls (lines 37-45). -/
def Buffer.isHost : Buffer → Bool
  | Buffer.h_A | Buffer.h_B | Buffer.h_C => true
  | _ => false

/-- A heap on which every allocation succeeds, each new block holding `f`. -/
def heapAll {F : Type} (f : Nat → F) : Heap F :=
  { h_A := some f, h_B := some f, h_C := some f, d_A := some f, d_B := some f, d_C := some f }

/-- A heap on which only the allocation of `b` fails. -/
def heapFailing {F : Type} (b : Buffer) (f : Nat → F) : Heap F :=
  { h_A := if b = Buffer.h_A then none else some f,
    h_B := if b = Buffer.h_B then none else some f,
    h_C := if b = Buffer.h_C then none else some f,
    d_A := if b = Buffer.d_A then none else some f,
    d_B := if b = Buffer.d_B then none else some f,
    d_C := if b = Buffer.d_C then none else some f }

/-- The texts a run wrote to the error stream, in order. -/
def diagnostics {F : Type} (r : Run F) : List String :=
  r.events.filterMap fun e =>
    match e with
    | Event.err text => some text
    | _ => none

/-- Specification side: the diagnostic the source prints when the allocation of `b` is the
one that fails (lines 48, 60, 66, 72). -/
def expectedDiagnostic : Buffer → String
  | Buffer.h_A => "Failed to allocate host matrix!\n"
  | Buffer.h_B => "Failed to allocate host matrix!\n"
  | Buffer.h_C => "Failed to allocate host matrix!\n"
  | Buffer.d_A => "Failed to allocate device matrix A!\n"
  | Buffer.d_B => "Failed to allocate device matrix B!\n"
  | Buffer.d_C => "Failed to allocate device matrix C!\n"

/-! ## Exact arithmetic

An interpretation of the `float` and `double` operations in which no operation rounds:
a finite value is a rational number. Division by zero follows IEEE 754 (an infinity, or
not-a-number for `0 / 0`); every divisor the program forms is a `fabs` or a converted
`unsigned int`, so a zero divisor is `+0`. It agrees with the machine arithmetic only
where no operation rounds; it is used on runs whose values are all zero, and as an
instance where the arithmetic plays no part. -/

/-- A `double` value under exact arithmetic. -/
inductive XReal where
  | fin (q : ℚ)
  | posInf
  | negInf
  | nan
  deriving DecidableEq

/-- The function `fabs`. -/
def XReal.fabs : XReal → XReal
  | XReal.fin q => XReal.fin |q|
  | XReal.posInf => XReal.posInf
  | XReal.negInf => XReal.posInf
  | XReal.nan => XReal.nan

/-- Division `a / b`, a zero `b` being `+0`. -/
def XReal.div : XReal → XReal → XReal
  | XReal.fin a, XReal.fin b =>
    if b ≠ 0 then XReal.fin (a / b)
    else if 0 < a then XReal.posInf
    else if a < 0 then XReal.negInf
    else XReal.nan
  | XReal.fin _, XReal.posInf => XReal.fin 0
  | XReal.fin _, XReal.negInf => XReal.fin 0
  | XReal.posInf, XReal.fin b => if 0 ≤ b then XReal.posInf else XReal.negInf
  | XReal.negInf, XReal.fin b => if 0 ≤ b then XReal.negInf else XReal.posInf
  | _, _ => XReal.nan

/-- The comparison `a > b`: false as soon as an operand is not-a-number. -/
def XReal.gt : XReal → XReal → Bool
  | XReal.fin a, XReal.fin b => decide (b < a)
  | XReal.posInf, XReal.fin _ => true
  | XReal.posInf, XReal.negInf => true
  | XReal.fin _, XReal.negInf => true
  | _, _ => false

/-- The comparison `a <= b`: false as soon as an operand is not-a-number. -/
def XReal.le : XReal → XReal → Bool
  | XReal.fin a, XReal.fin b => decide (a ≤ b)
  | XReal.negInf, XReal.fin _ => true
  | XReal.negInf, XReal.negInf => true
  | XReal.negInf, XReal.posInf => true
  | XReal.fin _, XReal.posInf => true
  | XReal.posInf, XReal.posInf => true
  | _, _ => false

/-- Exact arithmetic, `valB` being the value of the literal `0.01f`. -/
def exactArith (valB : ℚ) : FloatArith ℚ XReal :=
  { one := 1,
    valB := valB,
    ofUInt := fun n => (n : ℚ),
    toDouble := XReal.fin,
    dOfUInt := fun n => XReal.fin (n : ℚ),
    fabs := XReal.fabs,
    div := XReal.div,
    gt := XReal.gt,
    eps := XReal.fin (1 / 1000000) }

/-- The quantity `rel_err` of line 122 for one element `c`. -/
def relErr {F D : Type} [Sub F] [Mul F] (ar : FloatArith F D) (dimsAx : Nat) (c : F) : D :=
  ar.div (ar.div (ar.fabs (ar.toDouble (c - ar.ofUInt dimsAx * ar.valB)))
    (ar.fabs (ar.toDouble c))) (ar.dOfUInt dimsAx)

/-! ## IEEE 754 arithmetic

An interpretation of the `float` and `double` operations as IEEE 754 binary32 and binary64
arithmetic with rounding to nearest, ties to even, every operation rounding once
(`FLT_EVAL_METHOD` 0). Only finite values in the normal range are represented: a result
that is subnormal, overflows, or is an infinity or a not-a-number (a division by zero) is
`none`, and a comparison with `none` is false. The sign of zero is not represented. It is
used on closed runs only, in which every value is finite, in the normal range, and no
divisor is zero. -/

/-- A finite binary floating-point value `(-1)^neg * m * 2^e`. -/
structure Fp where
  neg : Bool
  m : Nat
  e : Int
  deriving DecidableEq, Repr

/-- The rational number an `Fp` stands for. -/
def Fp.toRat (a : Fp) : ℚ := (if a.neg then -1 else 1) * (a.m : ℚ) * (2 : ℚ) ^ a.e

/-- Number of binary digits of `n`, by halving `n` until it is zero. -/
def bitLenAux : Nat → Nat → Nat
  | 0, _ => 0
  | fuel + 1, n => if n = 0 then 0 else bitLenAux fuel (n / 2) + 1

/-- Number of binary digits of `n` (`n` halvings are always enough). -/
def bitLen (n : Nat) : Nat := bitLenAux n n

/-- Rounding of `(-1)^neg * M * 2^E` to a significand of `p` bits, to nearest, ties to
even; exponents outside `[emin, emax]` are not represented. -/
def roundNE (p : Nat) (emin emax : Int) (neg : Bool) (M : Nat) (E : Int) : Option Fp :=
  if M = 0 then some ⟨false, 0, 0⟩ else
  if bitLen M ≤ p then
    if emin ≤ E - ((p - bitLen M : Nat) : Int) ∧ E - ((p - bitLen M : Nat) : Int) ≤ emax then
      some ⟨neg, M * 2 ^ (p - bitLen M), E - ((p - bitLen M : Nat) : Int)⟩
    else none
  else
    let s := bitLen M - p
    let q := M / 2 ^ s
    let r := M % 2 ^ s
    let q' := if 2 ^ (s - 1) < r ∨ (r = 2 ^ (s - 1) ∧ q % 2 = 1) then q + 1 else q
    let m := if q' = 2 ^ p then 2 ^ (p - 1) else q'
    let e := if q' = 2 ^ p then E + (s : Int) + 1 else E + (s : Int)
    if emin ≤ e ∧ e ≤ emax then some ⟨neg, m, e⟩ else none

/-- The integer `(-1)^neg * m * 2^shift`. -/
def Fp.scaled (a : Fp) (shift : Int) : Int :=
  (if a.neg then -1 else 1) * ((a.m * 2 ^ shift.toNat : Nat) : Int)

/-- Correctly rounded sum. -/
def fpAdd (p : Nat) (emin emax : Int) (a b : Fp) : Option Fp :=
  roundNE p emin emax
    (decide (a.scaled (a.e - min a.e b.e) + b.scaled (b.e - min a.e b.e) < 0))
    (a.scaled (a.e - min a.e b.e) + b.scaled (b.e - min a.e b.e)).natAbs (min a.e b.e)

/-- The opposite value. -/
def fpNeg (a : Fp) : Fp := if a.m = 0 then a else { a with neg := !a.neg }

/-- Correctly rounded product. -/
def fpMul (p : Nat) (emin emax : Int) (a b : Fp) : Option Fp :=
  roundNE p emin emax (a.neg != b.neg) (a.m * b.m) (a.e + b.e)

/-- Correctly rounded quotient: the integer quotient is taken with `p + 2` extra bits and
a sticky bit for a non-zero remainder. A zero divisor is not represented. -/
def fpDiv (p : Nat) (emin emax : Int) (a b : Fp) : Option Fp :=
  if b.m = 0 then none else
  roundNE p emin emax (a.neg != b.neg)
    (2 * ((a.m * 2 ^ (p + 2 + bitLen b.m)) / b.m)
      + (if (a.m * 2 ^ (p + 2 + bitLen b.m)) % b.m = 0 then 0 else 1))
    (a.e - b.e - ((p + 2 + bitLen b.m : Nat) : Int) - 1)

/-- The comparison `a > b`. -/
def fpGt (a b : Fp) : Bool :=
  decide (b.scaled (b.e - min a.e b.e) < a.scaled (a.e - min a.e b.e))

/-- A `float`: binary32, 24-bit significand. -/
structure F32 where
  val : Option Fp
  deriving DecidableEq

/-- A `double`: binary64, 53-bit significand. -/
structure F64 where
  val : Option Fp
  deriving DecidableEq

/-- Rounding to binary32. -/
def F32.round (neg : Bool) (M : Nat) (E : Int) : F32 := ⟨roundNE 24 (-149) 104 neg M E⟩

/-- Rounding to binary64. -/
def F64.round (neg : Bool) (M : Nat) (E : Int) : F64 := ⟨roundNE 53 (-1074) 971 neg M E⟩

/-- The decimal literal `num / den` read as a `float`. -/
def F32.literal (num den : Nat) : F32 := ⟨fpDiv 24 (-149) 104 ⟨false, num, 0⟩ ⟨false, den, 0⟩⟩

/-- The decimal literal `num / den` read as a `double`. -/
def F64.literal (num den : Nat) : F64 := ⟨fpDiv 53 (-1074) 971 ⟨false, num, 0⟩ ⟨false, den, 0⟩⟩

instance : Zero F32 := ⟨⟨some ⟨false, 0, 0⟩⟩⟩

instance : Add F32 :=
  ⟨fun a b => ⟨a.val.bind fun x => b.val.bind fun y => fpAdd 24 (-149) 104 x y⟩⟩

instance : Sub F32 :=
  ⟨fun a b => ⟨a.val.bind fun x => b.val.bind fun y => fpAdd 24 (-149) 104 x (fpNeg y)⟩⟩

instance : Mul F32 :=
  ⟨fun a b => ⟨a.val.bind fun x => b.val.bind fun y => fpMul 24 (-149) 104 x y⟩⟩

/-- IEEE 754 arithmetic for the driver. -/
def ieeeArith : FloatArith F32 F64 :=
  { one := F32.literal 1 1,
    valB := F32.literal 1 100,
    ofUInt := fun n => F32.round false n 0,
    toDouble := fun a => ⟨a.val.bind fun x => roundNE 53 (-1074) 971 x.neg x.m x.e⟩,
    dOfUInt := fun n => F64.round false n 0,
    fabs := fun a => ⟨a.val.map fun x => { x with neg := false }⟩,
    div := fun a b => ⟨a.val.bind fun x => b.val.bind fun y => fpDiv 53 (-1074) 971 x y⟩,
    gt := fun a b =>
      match a.val, b.val with
      | some x, some y => fpGt x y
      | _, _ => false,
    eps := F64.literal 1 1000000 }

/-! ## Generic loop lemmas -/

theorem forLoop_zero {σ : Type} (body : Nat → σ → Option σ) (i : Nat) (s : σ) :
    forLoop body 0 i s = some s := rfl

theorem forLoop_succ {σ : Type} (body : Nat → σ → Option σ) (n i : Nat) (s : σ) :
    forLoop body (n + 1) i s = (body i s).bind (forLoop body n (i + 1)) := rfl

/-- Total-correctness rule: an invariant that every iteration re-establishes
(and under which every iteration is defined) holds at the end of the loop. -/
theorem forLoop_inv {σ : Type} (body : Nat → σ → Option σ) (Inv : Nat → σ → Prop) :
    ∀ (n lo : Nat) (s : σ), Inv lo s →
      (∀ i t, lo ≤ i → i < lo + n → Inv i t → ∃ t', body i t = some t' ∧ Inv (i + 1) t') →
      ∃ t, forLoop body n lo s = some t ∧ Inv (lo + n) t := by
  intro n
  induction n with
  | zero => intro lo s h0 _; exact ⟨s, rfl, by simpa using h0⟩
  | succ n ih =>
    intro lo s h0 hstep
    obtain ⟨t', hb, ht'⟩ := hstep lo s (Nat.le_refl _) (by omega) h0
    obtain ⟨t, hl, ht⟩ := ih (lo + 1) t' ht'
      (fun i u h1 h2 hu => hstep i u (by omega) (by omega) hu)
    refine ⟨t, ?_, ?_⟩
    · rw [forLoop_succ, hb]; exact hl
    · have : lo + (n + 1) = lo + 1 + n := by omega
      rw [this]; exact ht

/-- Lock-step rule: two loops whose iterations fail together, or succeed together
into related states, end the same way. -/
theorem forLoop_rel {σ : Type} (b1 b2 : Nat → σ → Option σ) (R : Nat → σ → σ → Prop) :
    ∀ (n lo : Nat) (s1 s2 : σ), R lo s1 s2 →
      (∀ i t1 t2, lo ≤ i → i < lo + n → R i t1 t2 →
        (b1 i t1 = none ∧ b2 i t2 = none) ∨
        ∃ u1 u2, b1 i t1 = some u1 ∧ b2 i t2 = some u2 ∧ R (i + 1) u1 u2) →
      (forLoop b1 n lo s1 = none ∧ forLoop b2 n lo s2 = none) ∨
      ∃ u1 u2, forLoop b1 n lo s1 = some u1 ∧ forLoop b2 n lo s2 = some u2 ∧
        R (lo + n) u1 u2 := by
  intro n
  induction n with
  | zero => intro lo s1 s2 h0 _; exact Or.inr ⟨s1, s2, rfl, rfl, by simpa using h0⟩
  | succ n ih =>
    intro lo s1 s2 h0 hstep
    rcases hstep lo s1 s2 (Nat.le_refl _) (by omega) h0 with ⟨h1, h2⟩ | ⟨u1, u2, h1, h2, hr⟩
    · left; simp [forLoop_succ, h1, h2]
    · rcases ih (lo + 1) u1 u2 hr
        (fun i t1 t2 ha hb hc => hstep i t1 t2 (by omega) (by omega) hc) with
        ⟨k1, k2⟩ | ⟨v1, v2, k1, k2, kr⟩
      · left; simp [forLoop_succ, h1, h2, k1, k2]
      · right
        refine ⟨v1, v2, ?_, ?_, ?_⟩
        · simp [forLoop_succ, h1, k1]
        · simp [forLoop_succ, h2, k2]
        · have : lo + (n + 1) = lo + 1 + n := by omega
          rw [this]; exact kr


/-! ## Index arithmetic -/

theorem idx_lt (i k h w : Nat) (hi : i < h) (hk : k < w) : i * w + k < h * w := by
  have : (i + 1) * w ≤ h * w := Nat.mul_le_mul_right w hi
  have e : (i + 1) * w = i * w + w := by ring
  omega

theorem mulAddInt_nat (a b c : Nat) (h : a * b + c ≤ 2147483647) :
    mulAddInt (a : Int) (b : Int) (c : Int) = some ((a * b + c : Nat) : Int) := by
  have e : ((a : Int) * (b : Int)) = ((a * b : Nat) : Int) := by push_cast; rfl
  unfold mulAddInt intChecked
  rw [e]
  generalize a * b = x at *
  have h1 : INT_MIN ≤ (x : Int) ∧ (x : Int) ≤ INT_MAX := by
    unfold INT_MIN INT_MAX; omega
  have h2 : INT_MIN ≤ (x : Int) + (c : Int) ∧ (x : Int) + (c : Int) ≤ INT_MAX := by
    unfold INT_MIN INT_MAX; omega
  simp [h1, h2]

theorem readAt_natCast {α : Type} (buf : List α) (p : Nat) :
    readAt buf (p : Int) = buf[p]? := by
  simp [readAt]

theorem writeAt_natCast {α : Type} (buf : List α) (p : Nat) (v : α) (h : p < buf.length) :
    writeAt buf (p : Int) v = some (buf.set p v) := by
  simp [writeAt, h]

theorem writeAt_natCast_none {α : Type} (buf : List α) (p : Nat) (v : α)
    (h : ¬ p < buf.length) : writeAt buf (p : Int) v = none := by
  unfold writeAt
  rw [if_neg]
  intro h'
  exact h (by simpa using h'.2)

theorem cell_div (i j w : Nat) (hj : j < w) : (i * w + j) / w = i := by
  have hw : 0 < w := by omega
  rw [Nat.add_comm, Nat.add_mul_div_right _ _ hw, Nat.div_eq_of_lt hj, Nat.zero_add]

theorem cell_mod (i j w : Nat) (hj : j < w) : (i * w + j) % w = j := by
  rw [Nat.add_comm, Nat.add_mul_mod_self_right, Nat.mod_eq_of_lt hj]

theorem writesOf_append (l1 l2 : List Access) :
    writesOf (l1 ++ l2) = writesOf l1 ++ writesOf l2 := by
  induction l1 with
  | nil => rfl
  | cons a l ih => cases a <;> simp [writesOf, ih]

theorem readsWithin_append (szA szB : Int) (l1 l2 : List Access)
    (h1 : ReadsWithin szA szB l1) (h2 : ReadsWithin szA szB l2) :
    ReadsWithin szA szB (l1 ++ l2) := by
  intro a ha
  rcases List.mem_append.mp ha with h | h
  · exact h1 a h
  · exact h2 a h


/-! ## The kernel on matrices whose element counts fit in `int` -/

theorem getElem?_eq_some_getD {α : Type} [Zero α] (buf : List α) (p : Nat)
    (h : p < buf.length) : buf[p]? = some (buf.getD p 0) := by
  rw [List.getD_eq_getElem?_getD, List.getElem?_eq_getElem h]; rfl

theorem dotProduct_succ {α : Type} [Zero α] [Add α] [Mul α] (A B : List α)
    (wA wB i j : Nat) :
    dotProduct A B (wA + 1) wB i j =
      (List.range wA).foldl
        (fun s k => s + A.getD (i * (wA + 1) + k) 0 * B.getD (k * wB + j) 0) 0
      + A.getD (i * (wA + 1) + wA) 0 * B.getD (wA * wB + j) 0 := by
  simp [dotProduct, List.range_succ, List.foldl_append]

/-- The `k` loop computes the dot product and only reads inside `A` and `B`. -/
theorem dotLoop_spec {α : Type} [Zero α] [Add α] [Mul α] (A B : List α)
    (hA wA wB i j : Nat) (hszA : A.length = hA * wA) (hszB : B.length = wA * wB)
    (hbA : hA * wA ≤ 2147483647) (hbB : wA * wB ≤ 2147483647)
    (hi : i < hA) (hj : j < wB) (log : List Access)
    (hlog : ReadsWithin ((hA * wA : Nat) : Int) ((wA * wB : Nat) : Int) log) :
    ∃ log', forLoop (dotStep A B (wA : Int) (wB : Int) i j) (wA : Int).toNat 0 (0, log)
        = some (dotProduct A B wA wB i j, log') ∧
      ReadsWithin ((hA * wA : Nat) : Int) ((wA * wB : Nat) : Int) log' ∧
      writesOf log' = writesOf log := by
  have key := forLoop_inv (dotStep A B (wA : Int) (wB : Int) i j)
    (fun k (s : α × List Access) =>
      s.1 = (List.range k).foldl
        (fun s k => s + A.getD (i * wA + k) 0 * B.getD (k * wB + j) 0) 0 ∧
      ReadsWithin ((hA * wA : Nat) : Int) ((wA * wB : Nat) : Int) s.2 ∧
      writesOf s.2 = writesOf log)
    wA 0 (0, log) ⟨by simp, hlog, rfl⟩
    (by
      rintro k ⟨s, l⟩ _ hk ⟨hs, hl, hw⟩
      have hk' : k < wA := by omega
      have ha : i * wA + k < hA * wA := idx_lt i k hA wA hi hk'
      have hb : k * wB + j < wA * wB := idx_lt k j wA wB hk' hj
      have e1 := mulAddInt_nat i wA k (by omega)
      have e2 := mulAddInt_nat k wB j (by omega)
      have r1 := getElem?_eq_some_getD A (i * wA + k) (by omega)
      have r2 := getElem?_eq_some_getD B (k * wB + j) (by omega)
      simp only at hs hl hw
      refine ⟨(s + A.getD (i * wA + k) 0 * B.getD (k * wB + j) 0,
        l ++ [Access.readA ((i * wA + k : Nat) : Int), Access.readB ((k * wB + j : Nat) : Int)]),
        ?_, ?_, ?_, ?_⟩
      · simp only [dotStep, e1, e2, readAt_natCast, r1, r2, Option.some_bind]
      · show s + _ = _
        rw [List.range_succ, List.foldl_append, ← hs]; rfl
      · apply readsWithin_append _ _ _ _ hl
        intro a ha'
        simp only [List.mem_cons, List.mem_singleton, List.not_mem_nil, or_false] at ha'
        rcases ha' with rfl | rfl
        · simp only; omega
        · simp only; omega
      · simp only [writesOf_append, writesOf, List.append_nil]; exact hw)
  obtain ⟨⟨s, l⟩, hrun, hs, hl, hw⟩ := key
  refine ⟨l, ?_, hl, hw⟩
  simp only [Int.toNat_ofNat]
  rw [hrun]
  simp only at hs
  simp only [Nat.zero_add] at hs
  rw [hs]; rfl


theorem cellStep_spec {α : Type} [Zero α] [Add α] [Mul α] (A B C : List α)
    (hA wA wB i j : Nat) (hszA : A.length = hA * wA) (hszB : B.length = wA * wB)
    (hszC : C.length = hA * wB)
    (hbA : hA * wA ≤ 2147483647) (hbB : wA * wB ≤ 2147483647) (hbC : hA * wB ≤ 2147483647)
    (hi : i < hA) (hj : j < wB) (s : List α × List Access)
    (hs : KernelInv A B C hA wA wB (i * wB + j) s) :
    ∃ s', cellStep A B (wA : Int) (wB : Int) (wB : Int) i j s = some s' ∧
      KernelInv A B C hA wA wB (i * wB + j + 1) s' := by
  obtain ⟨Cs, l⟩ := s
  obtain ⟨hlen, hcells, hreads, hwrites⟩ := hs
  simp only at hlen hcells hreads hwrites
  obtain ⟨l', hdot, hreads', hwrites'⟩ :=
    dotLoop_spec A B hA wA wB i j hszA hszB hbA hbB hi hj l hreads
  have hn : i * wB + j < hA * wB := idx_lt i j hA wB hi hj
  have e := mulAddInt_nat i wB j (by omega)
  have w := writeAt_natCast Cs (i * wB + j)
    (dotProduct A B wA wB i j) (by omega)
  refine ⟨(Cs.set (i * wB + j) (dotProduct A B wA wB i j),
    l' ++ [Access.writeC ((i * wB + j : Nat) : Int)]), ?_, ?_, ?_, ?_, ?_⟩
  · simp only [cellStep, hdot, e, w, Option.some_bind]
  · simpa using hlen
  · intro p
    show (Cs.set (i * wB + j) (dotProduct A B wA wB i j))[p]? = _
    rw [List.getElem?_set]
    by_cases hp : i * wB + j = p
    · subst hp
      simp [show i * wB + j < Cs.length by omega, cell_div i j wB hj, cell_mod i j wB hj]
    · simp only [hp, if_false, hcells p]
      have : (p < i * wB + j + 1) ↔ (p < i * wB + j) := by omega
      simp [this]
  · apply readsWithin_append _ _ _ _ hreads'
    intro a ha
    simp only [List.mem_singleton] at ha
    subst ha
    trivial
  · show writesOf (l' ++ [Access.writeC ((i * wB + j : Nat) : Int)]) = _
    rw [writesOf_append, hwrites', hwrites, List.range_succ, List.map_append]
    rfl

theorem rowStep_spec {α : Type} [Zero α] [Add α] [Mul α] (A B C : List α)
    (hA wA wB i : Nat) (hszA : A.length = hA * wA) (hszB : B.length = wA * wB)
    (hszC : C.length = hA * wB)
    (hbA : hA * wA ≤ 2147483647) (hbB : wA * wB ≤ 2147483647) (hbC : hA * wB ≤ 2147483647)
    (hi : i < hA) (s : List α × List Access)
    (hs : KernelInv A B C hA wA wB (i * wB) s) :
    ∃ s', rowStep A B (wA : Int) (wB : Int) (wB : Int) i s = some s' ∧
      KernelInv A B C hA wA wB ((i + 1) * wB) s' := by
  have key := forLoop_inv (cellStep A B (wA : Int) (wB : Int) (wB : Int) i)
    (fun j s => KernelInv A B C hA wA wB (i * wB + j) s) wB 0 s (by simpa using hs)
    (by
      intro j t _ hj ht
      exact cellStep_spec A B C hA wA wB i j hszA hszB hszC hbA hbB hbC hi (by omega) t ht)
  obtain ⟨s', hrun, hs'⟩ := key
  refine ⟨s', ?_, ?_⟩
  · simp only [rowStep, Int.toNat_ofNat]; exact hrun
  · have e : (i + 1) * wB = i * wB + (0 + wB) := by ring
    rw [e]; exact hs'

/-- The kernel on an `hA x wA` by `wA x wB` product whose three element counts fit in
`int`: it is defined, fills `C` with the dot products, reads only inside `A` and `B`
and writes the cells `0, ..., hA * wB - 1` of `C`, each once, in that order. -/
theorem kernel_spec {α : Type} [Zero α] [Add α] [Mul α] (A B C : List α)
    (hA wA wB : Nat) (hszA : A.length = hA * wA) (hszB : B.length = wA * wB)
    (hszC : C.length = hA * wB)
    (hbA : hA * wA ≤ 2147483647) (hbB : wA * wB ≤ 2147483647) (hbC : hA * wB ≤ 2147483647) :
    ∃ s', matrixMulCPUTraced C A B (wA : Int) (wB : Int) (hA : Int) (wB : Int) (hA : Int)
        = some s' ∧ KernelInv A B C hA wA wB (hA * wB) s' := by
  have key := forLoop_inv (rowStep A B (wA : Int) (wB : Int) (wB : Int))
    (fun i s => KernelInv A B C hA wA wB (i * wB) s) hA 0 (C, [])
    ⟨rfl, fun p => by simp, fun a ha => by simp at ha, by simp [writesOf]⟩
    (by
      intro i t _ hi ht
      exact rowStep_spec A B C hA wA wB i hszA hszB hszC hbA hbB hbC (by omega) t ht)
  obtain ⟨s', hrun, hs'⟩ := key
  refine ⟨s', ?_, ?_⟩
  · simp only [matrixMulCPUTraced, Int.toNat_ofNat]; exact hrun
  · simpa using hs'


/-! ## Claim C1 : the kernel computes the matrix product -/

/-- C1 (amended): for `A` of shape `hA x wA`, `B` of shape `wA x wB` and `C` of
`hA * wB` cells, whose three element counts each fit in a C `int`, the call
`matrixMulCPU(C, A, B, wA, wB, hA, wB, hA)` is defined, keeps the length of `C`, and
leaves in every cell `C[i * wB + j]` (`i < hA`, `j < wB`) the dot product of row `i`
of `A` and column `j` of `B`, accumulated left to right from `0`. -/
theorem matrixMulCPU_computes_product {α : Type} [Zero α] [Add α] [Mul α] (A B C : List α)
    (hA wA wB : Nat) (hszA : A.length = hA * wA) (hszB : B.length = wA * wB)
    (hszC : C.length = hA * wB)
    (hbA : hA * wA ≤ 2147483647) (hbB : wA * wB ≤ 2147483647) (hbC : hA * wB ≤ 2147483647) :
    ∃ C', matrixMulCPU C A B (wA : Int) (wB : Int) (hA : Int) (wB : Int) (hA : Int) = some C' ∧
      C'.length = C.length ∧
      ∀ i j : Nat, i < hA → j < wB → C'[i * wB + j]? = some (dotProduct A B wA wB i j) := by
  obtain ⟨⟨C', l⟩, hrun, hlen, hcells, _, _⟩ :=
    kernel_spec A B C hA wA wB hszA hszB hszC hbA hbB hbC
  refine ⟨C', by simp [matrixMulCPU, hrun], hlen, ?_⟩
  intro i j hi hj
  have h := hcells (i * wB + j)
  simp only at h
  rw [h, if_pos (idx_lt i j hA wB hi hj), cell_div i j wB hj, cell_mod i j wB hj]

/-- C1 (witness): a 2 x 2 by 2 x 2 integer product. -/
theorem matrixMulCPU_computes_product_witness :
    ∃ C', matrixMulCPU [0, 0, 0, 0] [1, 2, 3, 4] [5, 6, 7, 8]
        ((2 : Nat) : Int) ((2 : Nat) : Int) ((2 : Nat) : Int) ((2 : Nat) : Int) ((2 : Nat) : Int)
        = some C' ∧ C'.length = [(0 : Int), 0, 0, 0].length ∧
      ∀ i j : Nat, i < 2 → j < 2 →
        C'[i * 2 + j]? = some (dotProduct [(1 : Int), 2, 3, 4] [5, 6, 7, 8] 2 2 i j) :=
  matrixMulCPU_computes_product [1, 2, 3, 4] [5, 6, 7, 8] [0, 0, 0, 0] 2 2 2
    (by decide) (by decide) (by decide) (by decide) (by decide) (by decide)

theorem dotStep_overflow {α : Type} [Add α] [Mul α] (A B : List α) (s : α × List Access) :
    dotStep A B 3 2147483647 0 0 2 s = none := by
  have e1 : mulAddInt ((0 : Nat) : Int) 3 ((2 : Nat) : Int) = some 2 := by
    simp [mulAddInt, intChecked, INT_MIN, INT_MAX]
  have e2 : mulAddInt ((2 : Nat) : Int) 2147483647 ((0 : Nat) : Int) = none := by
    simp [mulAddInt, intChecked, INT_MIN, INT_MAX]
  unfold dotStep
  rw [e1, e2]
  simp only [Option.some_bind, Option.none_bind]
  cases readAt A 2 <;> rfl

/-- With `wA = 3` and `wB = INT_MAX` the third step of the first dot product evaluates
`2 * 2147483647` in `int`: the kernel is undefined whatever the buffers hold. -/
theorem kernel_overflow {α : Type} [Zero α] [Add α] [Mul α] (A B C : List α) :
    matrixMulCPU C A B 3 2147483647 1 2147483647 1 = none := by
  have hdot : ∀ s : α × List Access,
      forLoop (dotStep A B 3 2147483647 0 0) 3 0 s = none := by
    intro s
    rw [forLoop_succ]
    cases h0 : dotStep A B 3 2147483647 0 0 0 s with
    | none => rfl
    | some s1 =>
      rw [Option.some_bind, forLoop_succ]
      cases h1 : dotStep A B 3 2147483647 0 0 (0 + 1) s1 with
      | none => rfl
      | some s2 =>
        rw [Option.some_bind, forLoop_succ]
        have := dotStep_overflow A B s2
        simp only [Nat.zero_add, Nat.reduceAdd] at this ⊢
        rw [this]; rfl
  have hcell : ∀ s : List α × List Access,
      cellStep A B 3 2147483647 2147483647 0 0 s = none := by
    intro s
    unfold cellStep
    have : (3 : Int).toNat = 3 := rfl
    rw [this, hdot]; rfl
  have hrow : ∀ s : List α × List Access,
      rowStep A B 3 2147483647 2147483647 0 s = none := by
    intro s
    unfold rowStep
    have : (2147483647 : Int).toNat = 2147483646 + 1 := rfl
    rw [this, forLoop_succ, hcell]; rfl
  unfold matrixMulCPU matrixMulCPUTraced
  have : (1 : Int).toNat = 0 + 1 := rfl
  rw [this, forLoop_succ, hrow]; rfl

/-- C1 (counterexample): `A` of shape `1 x 3`, `B` of shape `3 x 2147483647` and `C` of
`1 * 2147483647` cells have the shapes the claim asks for, yet the call produces no
result: the index `k * wB + j` leaves the range of `int` at `k = 2`. -/
theorem matrixMulCPU_large_shape_undefined :
    ([1, 1, 1] : List Int).length = 1 * 3 ∧
    (List.replicate 6442450941 (1 : Int)).length = 3 * 2147483647 ∧
    (List.replicate 2147483647 (0 : Int)).length = 1 * 2147483647 ∧
    matrixMulCPU (List.replicate 2147483647 (0 : Int)) [1, 1, 1]
      (List.replicate 6442450941 (1 : Int)) 3 2147483647 1 2147483647 1 = none :=
  ⟨rfl, by rw [List.length_replicate], by rw [List.length_replicate],
    kernel_overflow _ _ _⟩

/-- Full description of what `constantInit` does when `size` cells fit the buffer. -/
theorem constantInit_spec {α : Type} (data : List α) (size : Int) (val : α)
    (h : size ≤ data.length) :
    ∃ r, constantInit data size val = some r ∧ r.length = data.length ∧
      ∀ p : Nat, r[p]? = if (p : Int) < size ∧ p < data.length then some val else data[p]? := by
  have key := forLoop_inv (fun i d => writeAt d (i : Int) val)
    (fun n (d : List α) => d.length = data.length ∧
      ∀ p : Nat, d[p]? = if p < n ∧ p < data.length then some val else data[p]?)
    size.toNat 0 data ⟨rfl, fun p => by simp⟩
    (by
      intro i t _ hi ⟨hlen, ht⟩
      have hi' : i < t.length := by omega
      refine ⟨t.set i val, writeAt_natCast t i val hi', by simpa using hlen, ?_⟩
      intro p
      rw [List.getElem?_set]
      by_cases hp : i = p
      · subst hp; simp [hi', show i < data.length by omega]
      · simp only [hp, if_false, ht p]
        have : (p < i + 1) ↔ (p < i) := by omega
        simp [this])
  obtain ⟨r, hr, hlen, hp⟩ := key
  refine ⟨r, hr, hlen, fun p => ?_⟩
  rw [hp p]
  have : (0 + size.toNat > p) ↔ ((p : Int) < size) := by omega
  simp only [gt_iff_lt] at this
  simp [this]

/-! ## Claim C2 : constant matrices -/

theorem getD_replicate_lt {α : Type} (a d : α) (n p : Nat) (h : p < n) :
    (List.replicate n a).getD p d = a := by
  rw [List.getD_eq_getElem _ _ (by simpa using h)]; simp

/-- On constant matrices every dot product is the same running sum. -/
theorem dotProduct_replicate {α : Type} [Zero α] [Add α] [Mul α] (a b : α)
    (m k n i j : Nat) (hi : i < m) (hj : j < n) :
    dotProduct (List.replicate (m * k) a) (List.replicate (k * n) b) k n i j
      = accumulate (a * b) k := by
  unfold dotProduct accumulate
  apply List.foldl_ext
  intro s t ht
  have ht' : t < k := List.mem_range.mp ht
  rw [getD_replicate_lt a 0 (m * k) (i * k + t) (idx_lt i t m k hi ht'),
    getD_replicate_lt b 0 (k * n) (t * n + j) (idx_lt t j k n ht' hj)]

theorem accumulate_semiring {R : Type} [Semiring R] (x : R) (k : Nat) :
    accumulate x k = x * (k : R) := by
  unfold accumulate
  induction k with
  | zero => simp
  | succ k ih =>
    rw [List.range_succ, List.foldl_append, ih]
    simp [mul_add]

/-- A buffer completely filled by `constantInit` is the constant list. -/
theorem constantInit_full {α : Type} (data : List α) (val : α) :
    constantInit data ((data.length : Nat) : Int) val
      = some (List.replicate data.length val) := by
  obtain ⟨r, hr, hlen, hp⟩ := constantInit_spec data (data.length : Int) val (le_refl _)
  rw [hr]
  congr 1
  apply List.ext_getElem?
  intro p
  rw [hp p, List.getElem?_replicate]
  by_cases h : p < data.length
  · simp [h]
  · simp [h]; omega

/-- The kernel on constant matrices, in any arithmetic (no algebraic law is used). -/
theorem kernel_constant {α : Type} [Zero α] [Add α] [Mul α] (a b : α) (m k n : Nat)
    (C : List α) (hszC : C.length = m * n)
    (hbA : m * k ≤ 2147483647) (hbB : k * n ≤ 2147483647) (hbC : m * n ≤ 2147483647) :
    matrixMulCPU C (List.replicate (m * k) a) (List.replicate (k * n) b)
        (k : Int) (n : Int) (m : Int) (n : Int) (m : Int)
      = some (List.replicate (m * n) (accumulate (a * b) k)) := by
  obtain ⟨⟨C', l⟩, hrun, hlen, hcells, _, _⟩ := kernel_spec
    (List.replicate (m * k) a) (List.replicate (k * n) b) C m k n
    (by simp) (by simp) hszC hbA hbB hbC
  simp only at hlen hcells
  unfold matrixMulCPU
  rw [hrun]
  simp only [Option.map_some', Option.some.injEq]
  apply List.ext_getElem?
  intro p
  rw [List.getElem?_replicate, hcells p]
  by_cases h : p < m * n
  · have hn : 0 < n := by
      rcases Nat.eq_zero_or_pos n with h0 | h0
      · subst h0; simp at h
      · exact h0
    have hi : p / n < m := by
      rw [Nat.div_lt_iff_lt_mul hn]; exact h
    rw [if_pos h, if_pos h, dotProduct_replicate a b m k n _ _ hi (Nat.mod_lt _ hn)]
  · rw [if_neg h, if_neg h]
    apply List.getElem?_eq_none
    omega

/-- C2 (amended): for `m`, `k`, `n` whose element counts `m * k`, `k * n`, `m * n` each fit
in a C `int`, with `A` filled with `a` and `B` filled with `b` by `constantInit`, the
kernel produces a `C` of `m * n` cells all equal to `a * b * k` (exact arithmetic: any
semiring). -/
theorem constant_matrices_product {R : Type} [Semiring R] (a b : R) (m k n : Nat)
    (A0 B0 C0 : List R) (hA0 : A0.length = m * k) (hB0 : B0.length = k * n)
    (hC0 : C0.length = m * n)
    (hbA : m * k ≤ 2147483647) (hbB : k * n ≤ 2147483647) (hbC : m * n ≤ 2147483647) :
    ∃ A B C', constantInit A0 ((m * k : Nat) : Int) a = some A ∧
      constantInit B0 ((k * n : Nat) : Int) b = some B ∧
      matrixMulCPU C0 A B (k : Int) (n : Int) (m : Int) (n : Int) (m : Int) = some C' ∧
      C' = List.replicate (m * n) (a * b * (k : R)) := by
  refine ⟨List.replicate (m * k) a, List.replicate (k * n) b,
    List.replicate (m * n) (a * b * (k : R)), ?_, ?_, ?_, rfl⟩
  · rw [← hA0]; exact constantInit_full A0 a
  · rw [← hB0]; exact constantInit_full B0 b
  · rw [kernel_constant a b m k n C0 hC0 hbA hbB hbC, accumulate_semiring]

/-- C2 (witness): a 2 x 3 matrix of twos times a 3 x 2 matrix of fives. -/
theorem constant_matrices_product_witness :
    ∃ A B C', constantInit [(0 : Int), 0, 0, 0, 0, 0] ((2 * 3 : Nat) : Int) 2 = some A ∧
      constantInit [(0 : Int), 0, 0, 0, 0, 0] ((3 * 2 : Nat) : Int) 5 = some B ∧
      matrixMulCPU [(9 : Int), 9, 9, 9] A B ((3 : Nat) : Int) ((2 : Nat) : Int)
        ((2 : Nat) : Int) ((2 : Nat) : Int) ((2 : Nat) : Int) = some C' ∧
      C' = List.replicate (2 * 2) ((2 : Int) * 5 * ((3 : Nat) : Int)) :=
  constant_matrices_product 2 5 2 3 2 _ _ _ (by decide) (by decide) (by decide)
    (by decide) (by decide) (by decide)

/-- With `wA = 0`, `wC = INT_MAX` and `hC = 2` the second cell of the second row has index
`1 * 2147483647 + 1`, outside the range of `int`. -/
theorem kernel_overflow_second_row {α : Type} [Zero α] [Add α] [Mul α] (A B C : List α) :
    matrixMulCPU C A B 0 2147483647 2 2147483647 2 = none := by
  have e : mulAddInt ((1 : Nat) : Int) 2147483647 ((1 : Nat) : Int) = none := by
    simp [mulAddInt, intChecked, INT_MIN, INT_MAX]
  have hcell : ∀ s : List α × List Access,
      cellStep A B 0 2147483647 2147483647 1 1 s = none := by
    intro s
    unfold cellStep
    have : (0 : Int).toNat = 0 := rfl
    rw [this, forLoop_zero, Option.some_bind, e]; rfl
  have hrow : ∀ s : List α × List Access,
      rowStep A B 0 2147483647 2147483647 1 s = none := by
    intro s
    unfold rowStep
    have : (2147483647 : Int).toNat = 2147483645 + 1 + 1 := rfl
    rw [this, forLoop_succ]
    cases cellStep A B 0 2147483647 2147483647 1 0 s with
    | none => rfl
    | some s1 => rw [Option.some_bind, forLoop_succ, hcell]; rfl
  unfold matrixMulCPU matrixMulCPUTraced
  have : (2 : Int).toNat = 0 + 1 + 1 := rfl
  rw [this, forLoop_succ]
  cases rowStep A B 0 2147483647 2147483647 0 (C, []) with
  | none => rfl
  | some s1 => rw [Option.some_bind, forLoop_succ, hrow]; rfl

/-- C2 (counterexample): `m = 2`, `k = 0`, `n = 2147483647`. `A` and `B` are empty and
filled by `constantInit`, `C` has `m * n` cells, and the kernel produces no `C`: the
index `i * wC + j` leaves the range of `int` in the second row. -/
theorem constant_matrices_large_shape_undefined :
    constantInit ([] : List Int) ((2 * 0 : Nat) : Int) 1 = some [] ∧
    constantInit ([] : List Int) ((0 * 2147483647 : Nat) : Int) 1 = some [] ∧
    (List.replicate 4294967294 (7 : Int)).length = 2 * 2147483647 ∧
    matrixMulCPU (List.replicate 4294967294 (7 : Int)) [] []
      ((0 : Nat) : Int) ((2147483647 : Nat) : Int) ((2 : Nat) : Int)
      ((2147483647 : Nat) : Int) ((2 : Nat) : Int) = none :=
  ⟨rfl, rfl, by rw [List.length_replicate], kernel_overflow_second_row _ _ _⟩


/-! ## Claim C10 : `constantInit` -/

/-- C10: for every buffer `data`, every `size` not larger than the length of the buffer and
every `val`, `constantInit(data, size, val)` is defined, keeps the length of the buffer,
sets every element of index `< size` to `val`, keeps every element of index `>= size`,
and leaves the buffer unchanged when `size <= 0`. -/
theorem constantInit_fills {α : Type} (data : List α) (size : Int) (val : α)
    (h : size ≤ data.length) :
    ∃ r, constantInit data size val = some r ∧ r.length = data.length ∧
      (∀ i : Nat, (i : Int) < size → r[i]? = some val) ∧
      (∀ i : Nat, size ≤ (i : Int) → r[i]? = data[i]?) ∧
      (size ≤ 0 → r = data) := by
  obtain ⟨r, hr, hlen, hp⟩ := constantInit_spec data size val h
  refine ⟨r, hr, hlen, ?_, ?_, ?_⟩
  · intro i hi
    rw [hp i, if_pos ⟨hi, by omega⟩]
  · intro i hi
    rw [hp i, if_neg (by omega)]
  · intro h0
    apply List.ext_getElem?
    intro p
    rw [hp p, if_neg (by omega)]

/-- C10 (witness): filling the first two of four cells. -/
theorem constantInit_fills_witness :
    ∃ r, constantInit [(1 : Int), 2, 3, 4] 2 9 = some r ∧
      r.length = [(1 : Int), 2, 3, 4].length ∧
      (∀ i : Nat, (i : Int) < 2 → r[i]? = some 9) ∧
      (∀ i : Nat, (2 : Int) ≤ (i : Int) → r[i]? = [(1 : Int), 2, 3, 4][i]?) ∧
      ((2 : Int) ≤ 0 → r = [(1 : Int), 2, 3, 4]) :=
  constantInit_fills [1, 2, 3, 4] 2 9 (by decide)

/-! ## Claim C3 : running the kernel again changes nothing -/

theorem mulAddInt_eq_some (a b c z : Int) (h : mulAddInt a b c = some z) : z = a * b + c := by
  unfold mulAddInt intChecked at h
  by_cases h1 : INT_MIN ≤ a * b ∧ a * b ≤ INT_MAX
  · rw [if_pos h1, Option.some_bind] at h
    by_cases h2 : INT_MIN ≤ a * b + c ∧ a * b + c ≤ INT_MAX
    · rw [if_pos h2] at h; exact (Option.some.inj h).symm
    · rw [if_neg h2] at h; exact absurd h (by simp)
  · rw [if_neg h1] at h; exact absurd h (by simp)

/-- One cell, two runs: the same access either fails in both or writes the same value
at the same place in both. -/
theorem cellStep_rel {α : Type} [Zero α] [Add α] [Mul α] (A B C1 C2 : List α)
    (wA wB wC : Int) (i j : Nat) (hlen : C1.length = C2.length) (hj : j < wC.toNat)
    (t1 t2 : List α × List Access)
    (h : KernelRel C1 C2 (i * wC.toNat + j) t1 t2) :
    (cellStep A B wA wB wC i j t1 = none ∧ cellStep A B wA wB wC i j t2 = none) ∨
    ∃ u1 u2, cellStep A B wA wB wC i j t1 = some u1 ∧
      cellStep A B wA wB wC i j t2 = some u2 ∧
      KernelRel C1 C2 (i * wC.toNat + j + 1) u1 u2 := by
  obtain ⟨c1, l1⟩ := t1
  obtain ⟨c2, l2⟩ := t2
  obtain ⟨hl, h1, h2, hlt, hge⟩ := h
  simp only at hl h1 h2 hlt hge
  subst hl
  unfold cellStep
  simp only
  cases hdot : forLoop (dotStep A B wA wB i j) wA.toNat 0 (0, l1) with
  | none => left; exact ⟨rfl, rfl⟩
  | some r =>
    simp only [Option.some_bind]
    cases hidx : mulAddInt (i : Int) wC (j : Int) with
    | none => left; exact ⟨rfl, rfl⟩
    | some pc =>
      simp only [Option.some_bind]
      have hpc : pc = ((i * wC.toNat + j : Nat) : Int) := by
        rw [mulAddInt_eq_some _ _ _ _ hidx]
        have : ((wC.toNat : Nat) : Int) = wC := Int.toNat_of_nonneg (by omega)
        push_cast
        rw [this]
      subst hpc
      by_cases hin : i * wC.toNat + j < c1.length
      · right
        have hin2 : i * wC.toNat + j < c2.length := by omega
        refine ⟨(c1.set (i * wC.toNat + j) r.1,
            r.2 ++ [Access.writeC ((i * wC.toNat + j : Nat) : Int)]),
          (c2.set (i * wC.toNat + j) r.1,
            r.2 ++ [Access.writeC ((i * wC.toNat + j : Nat) : Int)]), ?_, ?_, ?_⟩
        · rw [writeAt_natCast _ _ _ hin]; rfl
        · rw [writeAt_natCast _ _ _ hin2]; rfl
        · refine ⟨rfl, by simpa using h1, by simpa using h2, ?_, ?_⟩
          · intro p hp
            show (c1.set _ _)[p]? = (c2.set _ _)[p]?
            rw [List.getElem?_set, List.getElem?_set]
            by_cases e : i * wC.toNat + j = p
            · subst e; simp [hin, hin2]
            · simp only [e, if_false]; exact hlt p (by omega)
          · intro p hp
            show (c1.set _ _)[p]? = _ ∧ (c2.set _ _)[p]? = _
            rw [List.getElem?_set, List.getElem?_set]
            have e : ¬ (i * wC.toNat + j = p) := by omega
            simp only [e, if_false]; exact hge p (by omega)
      · left
        have hin2 : ¬ (i * wC.toNat + j < c2.length) := by omega
        constructor
        · rw [writeAt_natCast_none _ _ _ hin]; rfl
        · rw [writeAt_natCast_none _ _ _ hin2]; rfl

theorem rowStep_rel {α : Type} [Zero α] [Add α] [Mul α] (A B C1 C2 : List α)
    (wA wB wC : Int) (i : Nat) (hlen : C1.length = C2.length)
    (t1 t2 : List α × List Access)
    (h : KernelRel C1 C2 (i * wC.toNat) t1 t2) :
    (rowStep A B wA wB wC i t1 = none ∧ rowStep A B wA wB wC i t2 = none) ∨
    ∃ u1 u2, rowStep A B wA wB wC i t1 = some u1 ∧ rowStep A B wA wB wC i t2 = some u2 ∧
      KernelRel C1 C2 ((i + 1) * wC.toNat) u1 u2 := by
  have key := forLoop_rel (cellStep A B wA wB wC i) (cellStep A B wA wB wC i)
    (fun j s1 s2 => KernelRel C1 C2 (i * wC.toNat + j) s1 s2) wC.toNat 0 t1 t2
    (by simpa using h)
    (fun j u1 u2 _ hj hu => cellStep_rel A B C1 C2 wA wB wC i j hlen (by omega) u1 u2 hu)
  have e : (i + 1) * wC.toNat = i * wC.toNat + (0 + wC.toNat) := by ring
  rw [e]
  exact key

/-- Two runs of the kernel that differ only in the initial content of `C` fail together,
or succeed together with the same produced cells. -/
theorem kernel_rel {α : Type} [Zero α] [Add α] [Mul α] (A B C1 C2 : List α)
    (wA wB hA wC hC : Int) (hlen : C1.length = C2.length) :
    (matrixMulCPUTraced C1 A B wA wB hA wC hC = none ∧
      matrixMulCPUTraced C2 A B wA wB hA wC hC = none) ∨
    ∃ u1 u2, matrixMulCPUTraced C1 A B wA wB hA wC hC = some u1 ∧
      matrixMulCPUTraced C2 A B wA wB hA wC hC = some u2 ∧
      KernelRel C1 C2 (hC.toNat * wC.toNat) u1 u2 := by
  have key := forLoop_rel (rowStep A B wA wB wC) (rowStep A B wA wB wC)
    (fun i s1 s2 => KernelRel C1 C2 (i * wC.toNat) s1 s2) hC.toNat 0 (C1, []) (C2, [])
    ⟨rfl, rfl, rfl, fun p hp => by simp at hp, fun p _ => ⟨rfl, rfl⟩⟩
    (fun i u1 u2 _ _ hu => rowStep_rel A B C1 C2 wA wB wC i hlen u1 u2 hu)
  simpa [matrixMulCPUTraced] using key

/-- A defined call of the kernel is a fixed point: calling it again on its own output
returns that output. -/
theorem matrixMulCPU_fixed {α : Type} [Zero α] [Add α] [Mul α] (A B C C' : List α)
    (wA wB hA wC hC : Int) (h : matrixMulCPU C A B wA wB hA wC hC = some C') :
    matrixMulCPU C' A B wA wB hA wC hC = some C' := by
  have hself := kernel_rel A B C C wA wB hA wC hC rfl
  unfold matrixMulCPU at h ⊢
  rcases hself with ⟨h1, _⟩ | ⟨u1, u2, h1, h2, hr⟩
  · rw [h1] at h; exact absurd h (by simp)
  · rw [h1] at h
    have hu : u1.1 = C' := by simpa using h
    have hlen : C.length = C'.length := by rw [← hu]; exact hr.2.1.symm
    rcases kernel_rel A B C C' wA wB hA wC hC hlen with ⟨k1, _⟩ | ⟨v1, v2, k1, k2, kr⟩
    · rw [k1] at h1; exact absurd h1 (by simp)
    · rw [k2]
      have hv : v1 = u1 := by rw [k1] at h1; exact Option.some.inj h1
      subst hv
      obtain ⟨_, _, kl2, klt, kge⟩ := kr
      simp only [Option.map_some', Option.some.injEq]
      apply List.ext_getElem?
      intro p
      by_cases hp : p < hC.toNat * wC.toNat
      · rw [← hu]; exact (klt p hp).symm
      · exact (kge p (by omega)).2

/-- Running the kernel `N >= 1` times gives what one run gives. -/
theorem repeatKernel_once {α : Type} [Zero α] [Add α] [Mul α] (A B C : List α)
    (wA wB hA wC hC : Int) (N : Nat) (hN : 1 ≤ N) :
    repeatKernel N C A B wA wB hA wC hC = matrixMulCPU C A B wA wB hA wC hC := by
  unfold repeatKernel
  obtain ⟨n, rfl⟩ : ∃ n, N = n + 1 := ⟨N - 1, by omega⟩
  rw [forLoop_succ]
  cases h : matrixMulCPU C A B wA wB hA wC hC with
  | none => rfl
  | some C' =>
    rw [Option.some_bind]
    have hfix := matrixMulCPU_fixed A B C C' wA wB hA wC hC h
    have : ∀ (k lo : Nat),
        forLoop (fun _ c => matrixMulCPU c A B wA wB hA wC hC) k lo C' = some C' := by
      intro k
      induction k with
      | zero => intro lo; rfl
      | succ k ih => intro lo; rw [forLoop_succ, hfix, Option.some_bind]; exact ih _
    exact this n _

/-- C3: for every `A`, `B`, dimensions and initial content of `C`, running the kernel
`N >= 1` times in a row (the driver's loop) gives exactly what one run gives; and two
output buffers of `hC * wC` cells (or fewer) with different initial contents give the
same result. -/
theorem repeatKernel_idempotent {α : Type} [Zero α] [Add α] [Mul α] (A B : List α)
    (wA wB hA wC hC : Int) :
    (∀ (N : Nat) (C : List α), 1 ≤ N →
      repeatKernel N C A B wA wB hA wC hC = matrixMulCPU C A B wA wB hA wC hC) ∧
    (∀ C1 C2 : List α, C1.length = C2.length → C1.length ≤ hC.toNat * wC.toNat →
      matrixMulCPU C1 A B wA wB hA wC hC = matrixMulCPU C2 A B wA wB hA wC hC) :=
  ⟨fun N C hN => repeatKernel_once A B C wA wB hA wC hC N hN, by
    intro C1 C2 hlen hsz
    unfold matrixMulCPU
    rcases kernel_rel A B C1 C2 wA wB hA wC hC hlen with ⟨k1, k2⟩ | ⟨v1, v2, k1, k2, kr⟩
    · rw [k1, k2]
    · rw [k1, k2]
      obtain ⟨_, kl1, kl2, klt, kge⟩ := kr
      simp only [Option.map_some', Option.some.injEq]
      apply List.ext_getElem?
      intro p
      by_cases hp : p < hC.toNat * wC.toNat
      · exact klt p hp
      · rw [List.getElem?_eq_none (by omega), List.getElem?_eq_none (by omega)]⟩

/-- C3 (witness): 300 runs on a 2 x 2 product, and two initial contents of `C`. -/
theorem repeatKernel_idempotent_witness :
    repeatKernel 300 [9, 9, 9, 9] [(1 : Int), 2, 3, 4] [5, 6, 7, 8] 2 2 2 2 2
      = matrixMulCPU [9, 9, 9, 9] [(1 : Int), 2, 3, 4] [5, 6, 7, 8] 2 2 2 2 2 ∧
    matrixMulCPU [9, 9, 9, 9] [(1 : Int), 2, 3, 4] [5, 6, 7, 8] 2 2 2 2 2
      = matrixMulCPU [0, 0, 0, 0] [(1 : Int), 2, 3, 4] [5, 6, 7, 8] 2 2 2 2 2 :=
  ⟨(repeatKernel_idempotent [(1 : Int), 2, 3, 4] [5, 6, 7, 8] 2 2 2 2 2).1 300
      [9, 9, 9, 9] (by decide),
   (repeatKernel_idempotent [(1 : Int), 2, 3, 4] [5, 6, 7, 8] 2 2 2 2 2).2
      [9, 9, 9, 9] [0, 0, 0, 0] (by decide) (by decide)⟩

/-! ## Claim C4 : accesses of the driver's kernel call -/

theorem intOfUInt_small (n : Nat) (h : n < 2147483648) : intOfUInt n = (n : Int) := by
  unfold intOfUInt UINT_RANGE
  have e : n % 4294967296 = n := Nat.mod_eq_of_lt (by omega)
  rw [e, if_pos h]

theorem elemCount_small (a b : Nat) (h : a * b < 4294967296) : elemCount a b = a * b := by
  unfold elemCount wrapUInt UINT_RANGE
  exact Nat.mod_eq_of_lt h

theorem memSize_small (n : Nat) (h : n < 1073741824) : memSize n / SIZEOF_FLOAT = n := by
  unfold memSize wrapUInt UINT_RANGE SIZEOF_FLOAT
  rw [Nat.mod_eq_of_lt (by omega)]
  omega

theorem kernel_zero_width {α : Type} [Zero α] [Add α] [Mul α] (A B C : List α)
    (wA wB hA wC hC : Int) (h : wC.toNat = 0) :
    matrixMulCPUTraced C A B wA wB hA wC hC = some (C, []) := by
  have : ∀ (n lo : Nat) (s : List α × List Access),
      forLoop (rowStep A B wA wB wC) n lo s = some s := by
    intro n
    induction n with
    | zero => intro lo s; rfl
    | succ n ih =>
      intro lo s
      rw [forLoop_succ]
      have : rowStep A B wA wB wC lo s = some s := by
        unfold rowStep; rw [h]; rfl
      rw [this, Option.some_bind]; exact ih _ _
  exact this _ _ _

theorem kernel_no_rows {α : Type} [Zero α] [Add α] [Mul α] (A B C : List α)
    (wA wB hA wC hC : Int) (h : hC.toNat = 0) :
    matrixMulCPUTraced C A B wA wB hA wC hC = some (C, []) := by
  unfold matrixMulCPUTraced; rw [h]; rfl

/-- C4 (amended): for `dimsA`, `dimsB` with matched inner dimensions whose three element
counts are below `2 ^ 30` (so that neither they nor the byte counts `4 * count` wrap
around 32 bits), on blocks of `mem_size / sizeof(float)` floats as `malloc` returns them,
the driver's kernel call is defined, reads `A` only at indices in `[0, size_A)`, reads
`B` only at indices in `[0, size_B)`, writes `C` at exactly the indices
`0, ..., size_C - 1` (each once, in order), and leaves a `C` of `dimsA.y * dimsB.x`
cells. -/
theorem driverKernelCall_in_bounds {F : Type} [Zero F] [Add F] [Mul F]
    (dimsA dimsB : dim3) (d_A d_B d_C : List F)
    (hmatch : dimsA.x = dimsB.y)
    (hcA : dimsA.x * dimsA.y < 1073741824) (hcB : dimsB.x * dimsB.y < 1073741824)
    (hcC : dimsA.y * dimsB.x < 1073741824)
    (hlA : d_A.length = memSize (elemCount dimsA.x dimsA.y) / SIZEOF_FLOAT)
    (hlB : d_B.length = memSize (elemCount dimsB.x dimsB.y) / SIZEOF_FLOAT)
    (hlC : d_C.length = memSize (elemCount dimsA.y dimsB.x) / SIZEOF_FLOAT) :
    ∃ C' log, driverKernelCall dimsA dimsB d_C d_A d_B = some (C', log) ∧
      ReadsWithin ((elemCount dimsA.x dimsA.y : Nat) : Int)
        ((elemCount dimsB.x dimsB.y : Nat) : Int) log ∧
      writesOf log = (List.range (elemCount dimsA.y dimsB.x)).map Int.ofNat ∧
      C'.length = dimsA.y * dimsB.x := by
  rw [elemCount_small _ _ (by omega), memSize_small _ hcA] at hlA
  rw [elemCount_small _ _ (by omega), memSize_small _ hcB] at hlB
  rw [elemCount_small _ _ (by omega), memSize_small _ hcC] at hlC
  rw [elemCount_small _ _ (show dimsA.x * dimsA.y < 4294967296 by omega),
    elemCount_small _ _ (show dimsB.x * dimsB.y < 4294967296 by omega),
    elemCount_small _ _ (show dimsA.y * dimsB.x < 4294967296 by omega)]
  by_cases hw : dimsB.x = 0
  · refine ⟨d_C, [], ?_, fun a ha => by simp at ha, by simp [hw, writesOf], by simp [hlC, hw]⟩
    unfold driverKernelCall
    apply kernel_zero_width
    rw [hw]; rfl
  by_cases hh : dimsA.y = 0
  · refine ⟨d_C, [], ?_, fun a ha => by simp at ha, by simp [hh, writesOf], by simp [hlC, hh]⟩
    unfold driverKernelCall
    apply kernel_no_rows
    rw [hh]; rfl
  have hy : 0 < dimsA.y := Nat.pos_of_ne_zero hh
  have hx : 0 < dimsB.x := Nat.pos_of_ne_zero hw
  have b1 : dimsA.x < 1073741824 :=
    lt_of_le_of_lt (Nat.le_mul_of_pos_right _ hy) hcA
  have b2 : dimsA.y < 1073741824 :=
    lt_of_le_of_lt (Nat.le_mul_of_pos_right _ hx) hcC
  have b3 : dimsB.x < 1073741824 :=
    lt_of_le_of_lt (Nat.le_mul_of_pos_left _ hy) hcC
  have e1 : dimsA.y * dimsA.x = dimsA.x * dimsA.y := Nat.mul_comm _ _
  have e2 : dimsA.x * dimsB.x = dimsB.x * dimsB.y := by rw [hmatch]; exact Nat.mul_comm _ _
  obtain ⟨⟨C', log⟩, hrun, hlen, _, hreads, hwrites⟩ :=
    kernel_spec d_A d_B d_C dimsA.y dimsA.x dimsB.x (by rw [hlA, e1]) (by rw [hlB, e2])
      hlC (by omega) (by omega) (by omega)
  refine ⟨C', log, ?_, ?_, hwrites, ?_⟩
  · unfold driverKernelCall
    rw [intOfUInt_small _ (by omega), intOfUInt_small _ (by omega),
      intOfUInt_small _ (by omega)]
    exact hrun
  · rw [e1, e2] at hreads; exact hreads
  · simp only at hlen; rw [hlen, hlC]

/-- C4 (witness): `dimsA = (3, 2)`, `dimsB = (4, 3)`. -/
theorem driverKernelCall_in_bounds_witness :
    ∃ C' log, driverKernelCall { x := 3, y := 2, z := 0 } { x := 4, y := 3, z := 0 }
        (List.replicate 8 (0 : Int)) (List.replicate 6 1) (List.replicate 12 1)
        = some (C', log) ∧
      ReadsWithin ((elemCount 3 2 : Nat) : Int) ((elemCount 4 3 : Nat) : Int) log ∧
      writesOf log = (List.range (elemCount 2 4)).map Int.ofNat ∧
      C'.length = 2 * 4 :=
  driverKernelCall_in_bounds { x := 3, y := 2, z := 0 } { x := 4, y := 3, z := 0 }
    (List.replicate 6 1) (List.replicate 12 1) (List.replicate 8 0)
    (by decide) (by decide) (by decide) (by decide) (by decide) (by decide) (by decide)

/-- With an empty `A` and at least one row, one column and one term per dot product, the
first read `A[0]` is outside the block. -/
theorem kernel_empty_A {α : Type} [Zero α] [Add α] [Mul α] (B C : List α)
    (wB hA : Int) (n : Nat) :
    matrixMulCPUTraced C [] B 1 wB hA 1 ((n + 1 : Nat) : Int) = none := by
  have hdot : ∀ s : α × List Access, dotStep ([] : List α) B 1 wB 0 0 0 s = none := by
    intro s
    have e : mulAddInt ((0 : Nat) : Int) 1 ((0 : Nat) : Int) = some 0 := by
      simp [mulAddInt, intChecked, INT_MIN, INT_MAX]
    unfold dotStep
    rw [e]
    rfl
  have hcell : ∀ s : List α × List Access, cellStep ([] : List α) B 1 wB 1 0 0 s = none := by
    intro s
    unfold cellStep
    have : (1 : Int).toNat = 0 + 1 := rfl
    rw [this, forLoop_succ, hdot]; rfl
  have hrow : ∀ s : List α × List Access, rowStep ([] : List α) B 1 wB 1 0 s = none := by
    intro s
    unfold rowStep
    have : (1 : Int).toNat = 0 + 1 := rfl
    rw [this, forLoop_succ, hcell]; rfl
  unfold matrixMulCPUTraced
  rw [Int.toNat_ofNat, forLoop_succ, hrow]; rfl

/-- C4 (counterexample): `dimsA = (1, 2^30)`, `dimsB = (1, 1)`. The inner dimensions match
and no element count wraps around 32 bits, but `mem_size_A = 4 * 2^30` does: `d_A` is a
block of 0 floats and the first read of the kernel is out of bounds. -/
theorem driverKernelCall_out_of_bounds :
    ({ x := 1, y := 1073741824, z := 0 } : dim3).x = ({ x := 1, y := 1, z := 0 } : dim3).y ∧
    1 * 1073741824 < 4294967296 ∧ elemCount 1 1073741824 = 1073741824 ∧
    elemCount 1 1 = 1 ∧ elemCount 1073741824 1 = 1073741824 ∧
    ([] : List Int).length = memSize (elemCount 1 1073741824) / SIZEOF_FLOAT ∧
    ([1] : List Int).length = memSize (elemCount 1 1) / SIZEOF_FLOAT ∧
    ([] : List Int).length = memSize (elemCount 1073741824 1) / SIZEOF_FLOAT ∧
    driverKernelCall { x := 1, y := 1073741824, z := 0 } { x := 1, y := 1, z := 0 }
      ([] : List Int) [] [1] = none := by
  refine ⟨rfl, by decide, by decide, by decide, by decide, by decide, by decide, by decide, ?_⟩
  exact kernel_empty_A [1] [] (intOfUInt 1) (intOfUInt 1073741824) 1073741823


/-! ## The check loop -/

/-- Partial-correctness rule: an invariant preserved by every defined iteration holds
at the end of a defined loop. -/
theorem forLoop_partial {σ : Type} (body : Nat → σ → Option σ) (Inv : Nat → σ → Prop) :
    ∀ (n lo : Nat) (s t : σ), forLoop body n lo s = some t → Inv lo s →
      (∀ i u u', lo ≤ i → i < lo + n → Inv i u → body i u = some u' → Inv (i + 1) u') →
      Inv (lo + n) t := by
  intro n
  induction n with
  | zero =>
    intro lo s t h h0 _
    rw [forLoop_zero] at h
    cases h
    simpa using h0
  | succ n ih =>
    intro lo s t h h0 hstep
    rw [forLoop_succ] at h
    cases hb : body lo s with
    | none => rw [hb] at h; exact absurd h (by simp)
    | some u =>
      rw [hb, Option.some_bind] at h
      have hu := hstep lo s u (Nat.le_refl _) (by omega) h0 hb
      have := ih (lo + 1) u t h hu
        (fun i v v' h1 h2 hv hbv => hstep i v v' (by omega) (by omega) hv hbv)
      have e : lo + (n + 1) = lo + 1 + n := by omega
      rw [e]; exact this

theorem intChecked_natCast (i : Nat) (h : i ≤ 2147483647) :
    intChecked (i : Int) = some (i : Int) := by
  unfold intChecked INT_MIN INT_MAX
  rw [if_pos (by omega)]

theorem intChecked_eq_some (z p : Int) (h : intChecked z = some p) : p = z := by
  unfold intChecked at h
  by_cases hz : INT_MIN ≤ z ∧ z ≤ INT_MAX
  · rw [if_pos hz] at h; exact (Option.some.inj h).symm
  · rw [if_neg hz] at h; exact absurd h (by simp)

/-- One defined iteration of the check loop re-establishes `CheckInv`. -/
theorem checkStep_inv {F D : Type} [Sub F] [Mul F] (ar : FloatArith F D) (h_C : List F)
    (dimsAx i : Nat) (u u' : List (Event F) × Bool)
    (hu : CheckInv ar h_C dimsAx i u) (hb : checkStep ar h_C dimsAx i u = some u') :
    CheckInv ar h_C dimsAx (i + 1) u' := by
  obtain ⟨evs, ok⟩ := u
  obtain ⟨hread, hok, hin, hall⟩ := hu
  simp only at hread hok hin hall
  unfold checkStep at hb
  cases hp : intChecked (i : Int) with
  | none => rw [hp] at hb; exact absurd hb (by simp)
  | some p =>
    have hpi := intChecked_eq_some _ _ hp
    subst hpi
    rw [hp, Option.some_bind, readAt_natCast] at hb
    cases hc : h_C[i]? with
    | none => rw [hc] at hb; exact absurd hb (by simp)
    | some c =>
      rw [hc, Option.some_bind] at hb
      cases hinc : intChecked ((i : Int) + 1) with
      | none => rw [hinc] at hb; exact absurd hb (by simp)
      | some q =>
      rw [hinc, Option.some_bind] at hb
      have hlast : ∀ k : Nat, k < i + 1 → k < i ∨ k = i := fun k hk => by omega
      by_cases hex : exceedsTolerance ar dimsAx c = true
      · rw [if_pos hex] at hb
        cases hb
        refine ⟨?_, ?_, ?_, ?_⟩
        · intro k hk
          rcases hlast k hk with h | h
          · exact hread k h
          · subst h; exact ⟨c, hc⟩
        · constructor
          · intro h; exact absurd h (by simp)
          · intro h
            have := h i c (by omega) hc
            rw [hex] at this
            exact absurd this (by simp)
        · intro k c' hk hc' hex'
          rcases hlast k hk with h | h
          · exact List.mem_append_left _ (hin k c' h hc' hex')
          · subst h
            rw [hc] at hc'
            cases hc'
            exact List.mem_append_right _ (List.mem_singleton.mpr rfl)
        · intro e he
          rcases List.mem_append.mp he with h | h
          · obtain ⟨k, c', e1, e2, e3, e4⟩ := hall e h
            exact ⟨k, c', e1, by omega, e3, e4⟩
          · exact ⟨i, c, List.mem_singleton.mp h, by omega, hc, hex⟩
      · rw [if_neg hex] at hb
        cases hb
        have hex' : exceedsTolerance ar dimsAx c = false := by
          cases h : exceedsTolerance ar dimsAx c
          · rfl
          · exact absurd h hex
        refine ⟨?_, ?_, ?_, ?_⟩
        · intro k hk
          rcases hlast k hk with h | h
          · exact hread k h
          · subst h; exact ⟨c, hc⟩
        · constructor
          · intro h k c' hk hc'
            rcases hlast k hk with h' | h'
            · exact hok.mp h k c' h' hc'
            · subst h'
              rw [hc] at hc'
              cases hc'
              exact hex'
          · intro h
            exact hok.mpr (fun k c' hk hc' => h k c' (by omega) hc')
        · intro k c' hk hc' hexk
          rcases hlast k hk with h | h
          · exact hin k c' h hc' hexk
          · subst h
            rw [hc] at hc'
            cases hc'
            exact absurd hexk hex
        · intro e he
          obtain ⟨k, c', e1, e2, e3, e4⟩ := hall e he
          exact ⟨k, c', e1, by omega, e3, e4⟩

/-- A defined run of the check has examined every element of index `< size_C`. -/
theorem checkResult_partial {F D : Type} [Sub F] [Mul F] (ar : FloatArith F D)
    (h_C : List F) (size_C dimsAx : Nat) (t : List (Event F) × Bool)
    (h : checkResult ar h_C size_C dimsAx = some t) :
    CheckInv ar h_C dimsAx size_C t := by
  have := forLoop_partial (checkStep ar h_C dimsAx) (CheckInv ar h_C dimsAx)
    size_C 0 ([], true) t h
    ⟨fun k hk => absurd hk (by omega), by simp, fun k c hk => absurd hk (by omega),
      fun e he => absurd he (by simp)⟩
    (fun i u u' _ _ hu hb => checkStep_inv ar h_C dimsAx i u u' hu hb)
  simpa using this

/-- The check is defined when `h_C` holds `size_C` elements and the counter, increments
included, fits in `int`. -/
theorem checkResult_defined {F D : Type} [Sub F] [Mul F] (ar : FloatArith F D)
    (h_C : List F) (size_C dimsAx : Nat) (hlen : size_C ≤ h_C.length)
    (hsz : size_C ≤ 2147483647) :
    ∃ t, checkResult ar h_C size_C dimsAx = some t := by
  obtain ⟨t, ht, _⟩ := forLoop_inv (checkStep ar h_C dimsAx) (fun _ _ => True)
    size_C 0 ([], true) trivial
    (by
      intro i u _ hi _
      have hi' : i < h_C.length := by omega
      unfold checkStep
      have hinc : intChecked ((i : Int) + 1) = some ((i : Int) + 1) := by
        have := intChecked_natCast (i + 1) (by omega)
        push_cast at this
        exact this
      rw [intChecked_natCast i (by omega), Option.some_bind, readAt_natCast,
        List.getElem?_eq_getElem hi', Option.some_bind, hinc, Option.some_bind]
      by_cases hex : exceedsTolerance ar dimsAx h_C[i] = true
      · rw [if_pos hex]; exact ⟨_, rfl, trivial⟩
      · rw [if_neg hex]; exact ⟨_, rfl, trivial⟩)
  exact ⟨t, ht⟩


/-! ## Claim C8 : allocation failure ends the run -/

theorem mallocBuf_none {F : Type} (bytes : Nat) :
    mallocBuf (none : Option (Nat → F)) bytes = none := rfl

theorem mallocBuf_some {F : Type} (f : Nat → F) (bytes : Nat) :
    mallocBuf (some f) bytes = some ((List.range (bytes / SIZEOF_FLOAT)).map f) := rfl

theorem mallocBuf_length {F : Type} (m : Option (Nat → F)) (bytes : Nat) (b : List F)
    (h : mallocBuf m bytes = some b) : b.length = bytes / SIZEOF_FLOAT := by
  cases m with
  | none => exact absurd h (by simp [mallocBuf])
  | some f =>
    rw [mallocBuf_some] at h
    cases h
    simp

/-- What a run that ends on an allocation failure looks like. -/
theorem exitFailure_facts {F : Type} (evs : List (Event F)) (text : String)
    (hev : ∀ t, Event.out t ∈ evs → t = "Allocating device memory on host...\n") :
    (exitFailure (evs ++ [Event.err text])).status = EXIT_FAILURE ∧
    (exitFailure (evs ++ [Event.err text])).status ≠ 0 ∧
    (exitFailure (evs ++ [Event.err text])).kernelCalls = 0 ∧
    (exitFailure (evs ++ [Event.err text])).checked = 0 ∧
    (exitFailure (evs ++ [Event.err text])).events.getLast? = some (Event.err text) ∧
    (∀ t, Event.out t ∈ (exitFailure (evs ++ [Event.err text])).events →
      t ≠ "Result = PASS\n" ∧ t ≠ "Result = FAIL\n") := by
  refine ⟨rfl, by show EXIT_FAILURE ≠ 0; decide, rfl, rfl, by simp [exitFailure], ?_⟩
  intro t ht
  simp only [exitFailure, List.mem_append, List.mem_singleton] at ht
  rcases ht with h | h
  · rw [hev t h]; exact ⟨by decide, by decide⟩
  · cases h

/-- The host buffers are filled without undefined behaviour when their element counts
are below `2 ^ 30`. -/
theorem constantInit_host {F : Type} (m : Option (Nat → F)) (size : Nat) (b : List F)
    (val : F) (hs : size < 1073741824) (h : mallocBuf m (memSize size) = some b) :
    constantInit b (intOfUInt size) val = some (List.replicate size val) := by
  have hl := mallocBuf_length m _ b h
  rw [memSize_small size hs] at hl
  rw [intOfUInt_small size (by omega), ← hl]
  exact constantInit_full b val

/-- C8: if the allocation of any of the six buffers fails, every defined run of
`matrixMultiply` ends with the failure status right after the diagnostic: the kernel
was never called, no element was checked and no `Result = PASS` or `Result = FAIL`
line was printed. A run can only be undefined in the two `constantInit` calls of lines
53-54, which precede every device allocation; it is defined whenever a host buffer
failed, or the element counts of `A` and `B` are below `2 ^ 30`. -/
theorem allocation_failure_exits {F D : Type} [Zero F] [Add F] [Mul F] [Sub F]
    (ar : FloatArith F D) (heap : Heap F) (block_size : Int) (dimsA dimsB : dim3)
    (hfail : heap.h_A = none ∨ heap.h_B = none ∨ heap.h_C = none ∨
      heap.d_A = none ∨ heap.d_B = none ∨ heap.d_C = none) :
    (∀ r, matrixMultiply ar heap block_size dimsA dimsB = some r →
      r.status = EXIT_FAILURE ∧ r.status ≠ 0 ∧ r.kernelCalls = 0 ∧ r.checked = 0 ∧
      (∃ text, r.events.getLast? = some (Event.err text)) ∧
      (∀ t, Event.out t ∈ r.events → t ≠ "Result = PASS\n" ∧ t ≠ "Result = FAIL\n")) ∧
    (matrixMultiply ar heap block_size dimsA dimsB = none →
      ∃ a b, mallocBuf heap.h_A (memSize (elemCount dimsA.x dimsA.y)) = some a ∧
        mallocBuf heap.h_B (memSize (elemCount dimsB.x dimsB.y)) = some b ∧
        (constantInit a (intOfUInt (elemCount dimsA.x dimsA.y)) ar.one = none ∨
          constantInit b (intOfUInt (elemCount dimsB.x dimsB.y)) ar.valB = none)) ∧
    ((heap.h_A = none ∨ heap.h_B = none ∨ heap.h_C = none ∨
        (elemCount dimsA.x dimsA.y < 1073741824 ∧ elemCount dimsB.x dimsB.y < 1073741824)) →
      ∃ r, matrixMultiply ar heap block_size dimsA dimsB = some r) := by
  have host : ∀ text : String, 
      (exitFailure ([Event.err text] : List (Event F))).status = EXIT_FAILURE ∧
      (exitFailure ([Event.err text] : List (Event F))).status ≠ 0 ∧
      (exitFailure ([Event.err text] : List (Event F))).kernelCalls = 0 ∧
      (exitFailure ([Event.err text] : List (Event F))).checked = 0 ∧
      (∃ t', (exitFailure ([Event.err text] : List (Event F))).events.getLast?
        = some (Event.err t')) ∧
      (∀ t, Event.out t ∈ (exitFailure ([Event.err text] : List (Event F))).events →
        t ≠ "Result = PASS\n" ∧ t ≠ "Result = FAIL\n") := by
    intro text
    obtain ⟨a, b, c, d, e, f⟩ := exitFailure_facts ([] : List (Event F)) text
      (fun t ht => absurd ht (by simp))
    exact ⟨a, b, c, d, ⟨text, e⟩, f⟩
  have dev : ∀ text : String,
      (exitFailure ([Event.out "Allocating device memory on host...\n", Event.err text] :
        List (Event F))).status = EXIT_FAILURE ∧
      (exitFailure ([Event.out "Allocating device memory on host...\n", Event.err text] :
        List (Event F))).status ≠ 0 ∧
      (exitFailure ([Event.out "Allocating device memory on host...\n", Event.err text] :
        List (Event F))).kernelCalls = 0 ∧
      (exitFailure ([Event.out "Allocating device memory on host...\n", Event.err text] :
        List (Event F))).checked = 0 ∧
      (∃ t', (exitFailure ([Event.out "Allocating device memory on host...\n",
        Event.err text] : List (Event F))).events.getLast? = some (Event.err t')) ∧
      (∀ t, Event.out t ∈ (exitFailure ([Event.out "Allocating device memory on host...\n",
        Event.err text] : List (Event F))).events →
        t ≠ "Result = PASS\n" ∧ t ≠ "Result = FAIL\n") := by
    intro text
    obtain ⟨a, b, c, d, e, f⟩ := exitFailure_facts
      ([Event.out "Allocating device memory on host...\n"] : List (Event F)) text
      (fun t ht => by simpa using ht)
    exact ⟨a, b, c, d, ⟨text, e⟩, f⟩
  obtain ⟨hA, hB, hC, dA, dB, dC⟩ := heap
  simp only at hfail
  cases hA with
  | none =>
    refine ⟨fun r hr => ?_, fun hn => absurd hn (by simp [matrixMultiply, mallocBuf]),
      fun _ => ⟨_, rfl⟩⟩
    have : r = exitFailure [Event.err "Failed to allocate host matrix!\n"] := by
      simp [matrixMultiply, mallocBuf] at hr; exact hr.symm
    rw [this]; exact host _
  | some fA =>
  cases hB with
  | none =>
    refine ⟨fun r hr => ?_, fun hn => absurd hn (by simp [matrixMultiply, mallocBuf]),
      fun _ => ⟨_, rfl⟩⟩
    have : r = exitFailure [Event.err "Failed to allocate host matrix!\n"] := by
      simp [matrixMultiply, mallocBuf] at hr; exact hr.symm
    rw [this]; exact host _
  | some fB =>
  cases hC with
  | none =>
    refine ⟨fun r hr => ?_, fun hn => absurd hn (by simp [matrixMultiply, mallocBuf]),
      fun _ => ⟨_, rfl⟩⟩
    have : r = exitFailure [Event.err "Failed to allocate host matrix!\n"] := by
      simp [matrixMultiply, mallocBuf] at hr; exact hr.symm
    rw [this]; exact host _
  | some fC =>
  have hfail' : dA = none ∨ dB = none ∨ dC = none := by
    rcases hfail with h | h | h | h | h | h
    · cases h
    · cases h
    · cases h
    · exact Or.inl h
    · exact Or.inr (Or.inl h)
    · exact Or.inr (Or.inr h)
  have hdev : ∀ a b : List F, ∃ text,
      (match mallocBuf dA (memSize (elemCount dimsA.x dimsA.y)) with
      | none =>
        some (exitFailure [Event.out "Allocating device memory on host...\n",
          Event.err "Failed to allocate device matrix A!\n"])
      | some d_A =>
        match mallocBuf dB (memSize (elemCount dimsB.x dimsB.y)) with
        | none =>
          some (exitFailure [Event.out "Allocating device memory on host...\n",
            Event.err "Failed to allocate device matrix B!\n"])
        | some d_B =>
          match mallocBuf dC (memSize (elemCount dimsA.y dimsB.x)) with
          | none =>
            some (exitFailure [Event.out "Allocating device memory on host...\n",
              Event.err "Failed to allocate device matrix C!\n"])
          | some d_C => benchmark ar block_size dimsA dimsB a b
              ((List.range (memSize (elemCount dimsA.y dimsB.x) / SIZEOF_FLOAT)).map fC)
              d_A d_B d_C)
      = some (exitFailure [Event.out "Allocating device memory on host...\n",
          Event.err text]) := by
    intro a b
    cases dA with
    | none => exact ⟨_, rfl⟩
    | some gA =>
      cases dB with
      | none => exact ⟨_, rfl⟩
      | some gB =>
        cases dC with
        | none => exact ⟨_, rfl⟩
        | some gC => rcases hfail' with h | h | h <;> cases h
  refine ⟨?_, ?_, ?_⟩
  · intro r hr
    simp only [matrixMultiply, mallocBuf_some] at hr
    cases h1 : constantInit ((List.range (memSize (elemCount dimsA.x dimsA.y) / SIZEOF_FLOAT)).map fA)
        (intOfUInt (elemCount dimsA.x dimsA.y)) ar.one with
    | none => rw [h1] at hr; exact absurd hr (by simp)
    | some a =>
      rw [h1, Option.some_bind] at hr
      cases h2 : constantInit
          ((List.range (memSize (elemCount dimsB.x dimsB.y) / SIZEOF_FLOAT)).map fB)
          (intOfUInt (elemCount dimsB.x dimsB.y)) ar.valB with
      | none => rw [h2] at hr; exact absurd hr (by simp)
      | some b =>
        rw [h2, Option.some_bind] at hr
        obtain ⟨text, ht⟩ := hdev a b
        rw [ht] at hr
        cases hr
        exact dev text
  · intro hn
    refine ⟨_, _, rfl, rfl, ?_⟩
    simp only [matrixMultiply, mallocBuf_some] at hn
    cases h1 : constantInit
        ((List.range (memSize (elemCount dimsA.x dimsA.y) / SIZEOF_FLOAT)).map fA)
        (intOfUInt (elemCount dimsA.x dimsA.y)) ar.one with
    | none => exact Or.inl rfl
    | some a =>
      rw [h1, Option.some_bind] at hn
      cases h2 : constantInit
          ((List.range (memSize (elemCount dimsB.x dimsB.y) / SIZEOF_FLOAT)).map fB)
          (intOfUInt (elemCount dimsB.x dimsB.y)) ar.valB with
      | none => exact Or.inr rfl
      | some b =>
        rw [h2, Option.some_bind] at hn
        obtain ⟨text, ht⟩ := hdev a b
        rw [ht] at hn
        exact absurd hn (by simp)
  · intro hdef
    rcases hdef with h | h | h | ⟨hsA, hsB⟩
    · cases h
    · cases h
    · cases h
    · simp only [matrixMultiply]
      rw [mallocBuf_some, mallocBuf_some, mallocBuf_some]
      simp only
      rw [constantInit_host (some fA) _ _ ar.one hsA rfl, Option.some_bind,
        constantInit_host (some fB) _ _ ar.valB hsB rfl, Option.some_bind]
      obtain ⟨text, ht⟩ := hdev _ _
      exact ⟨_, ht⟩

/-- C8 (witness): on the dimensions of `main`, with only `d_B` failing. -/
theorem allocation_failure_exits_witness :
    ∃ r, matrixMultiply (exactArith (1 / 100)) (heapFailing Buffer.d_B (fun _ => 0))
        mainBlockSize mainDimsA mainDimsB = some r ∧
      r.status = EXIT_FAILURE ∧ r.kernelCalls = 0 ∧ r.checked = 0 := by
  have h := allocation_failure_exits (exactArith (1 / 100))
    (heapFailing Buffer.d_B (fun _ => 0)) mainBlockSize mainDimsA mainDimsB
    (Or.inr (Or.inr (Or.inr (Or.inr (Or.inl rfl)))))
  obtain ⟨r, hr⟩ := h.2.2 (Or.inr (Or.inr (Or.inr ⟨by decide, by decide⟩)))
  obtain ⟨h1, _, h3, h4, _⟩ := h.1 r hr
  exact ⟨r, hr, h1, h3, h4⟩

/-! ## Claim C7 : the diagnostic of an allocation failure -/

/-- The diagnostic of a run in which exactly one allocation fails. -/
theorem diagnostics_of_failure {F D : Type} [Zero F] [Add F] [Mul F] [Sub F]
    (ar : FloatArith F D) (f : Nat → F) (block_size : Int) (dimsA dimsB : dim3)
    (hsA : elemCount dimsA.x dimsA.y < 1073741824)
    (hsB : elemCount dimsB.x dimsB.y < 1073741824) (b : Buffer) :
    (matrixMultiply ar (heapFailing b f) block_size dimsA dimsB).map diagnostics
      = some [expectedDiagnostic b] := by
  cases b
  case h_A => rfl
  case h_B => rfl
  case h_C => rfl
  all_goals
    simp only [matrixMultiply, heapFailing]
    simp only [reduceCtorEq, if_false, if_true, mallocBuf_some]
    rw [constantInit_host (some f) _ _ ar.one hsA rfl, Option.some_bind,
      constantInit_host (some f) _ _ ar.valB hsB rfl, Option.some_bind]
    rfl

/-- C7 (amended): when exactly one allocation fails (and the host blocks hold their
matrices: element counts of `A` and `B` below `2 ^ 30`), the error stream receives one
diagnostic: `Failed to allocate host matrix!` for any of the three host buffers, which
names no specific buffer, and `Failed to allocate device matrix A!`, `... B!`, `... C!`
for `d_A`, `d_B`, `d_C`. Two different buffers therefore get different diagnostics
exactly when they are not both host buffers. -/
theorem diagnostic_per_allocation {F D : Type} [Zero F] [Add F] [Mul F] [Sub F]
    (ar : FloatArith F D) (f : Nat → F) (block_size : Int) (dimsA dimsB : dim3)
    (hsA : elemCount dimsA.x dimsA.y < 1073741824)
    (hsB : elemCount dimsB.x dimsB.y < 1073741824) :
    (∀ b : Buffer,
      (matrixMultiply ar (heapFailing b f) block_size dimsA dimsB).map diagnostics
        = some [expectedDiagnostic b]) ∧
    (∀ b1 b2 : Buffer,
      (matrixMultiply ar (heapFailing b1 f) block_size dimsA dimsB).map diagnostics
        = (matrixMultiply ar (heapFailing b2 f) block_size dimsA dimsB).map diagnostics
      ↔ (b1 = b2 ∨ (b1.isHost = true ∧ b2.isHost = true))) := by
  refine ⟨diagnostics_of_failure ar f block_size dimsA dimsB hsA hsB, ?_⟩
  intro b1 b2
  rw [diagnostics_of_failure ar f block_size dimsA dimsB hsA hsB b1,
    diagnostics_of_failure ar f block_size dimsA dimsB hsA hsB b2]
  cases b1 <;> cases b2 <;> decide

/-- C7 (witness): the dimensions of `main`; `d_A` and `d_C` get different diagnostics. -/
theorem diagnostic_per_allocation_witness :
    (matrixMultiply (exactArith (1 / 100)) (heapFailing Buffer.d_A (fun _ => 0))
        mainBlockSize mainDimsA mainDimsB).map diagnostics
      = some ["Failed to allocate device matrix A!\n"] ∧
    (matrixMultiply (exactArith (1 / 100)) (heapFailing Buffer.d_C (fun _ => 0))
        mainBlockSize mainDimsA mainDimsB).map diagnostics
      = some ["Failed to allocate device matrix C!\n"] :=
  ⟨(diagnostic_per_allocation (exactArith (1 / 100)) (fun _ => 0) mainBlockSize mainDimsA
      mainDimsB (by decide) (by decide)).1 Buffer.d_A,
   (diagnostic_per_allocation (exactArith (1 / 100)) (fun _ => 0) mainBlockSize mainDimsA
      mainDimsB (by decide) (by decide)).1 Buffer.d_C⟩

/-- C7 (counterexample): `h_A` and `h_B` are different buffers, yet the run in which only
`h_A` fails and the run in which only `h_B` fails write the same diagnostic, which names
neither. -/
theorem host_diagnostics_coincide :
    Buffer.h_A ≠ Buffer.h_B ∧
    (matrixMultiply (exactArith (1 / 100)) (heapFailing Buffer.h_A (fun _ => 0))
        mainBlockSize mainDimsA mainDimsB).map diagnostics
      = some ["Failed to allocate host matrix!\n"] ∧
    (matrixMultiply (exactArith (1 / 100)) (heapFailing Buffer.h_B (fun _ => 0))
        mainBlockSize mainDimsA mainDimsB).map diagnostics
      = some ["Failed to allocate host matrix!\n"] :=
  ⟨by decide, rfl, rfl⟩

/-! ## The whole run -/

theorem memcpy_full {F : Type} (dst src : List F) (bytes : Nat)
    (h1 : dst.length = bytes / SIZEOF_FLOAT) (h2 : src.length = bytes / SIZEOF_FLOAT) :
    memcpy dst src bytes = some src := by
  unfold memcpy
  rw [if_pos ⟨by omega, by omega⟩, ← h2, List.take_length, ← h1.trans h2.symm,
    List.drop_length, List.append_nil]

/-- The driver's kernel call on constant matrices. -/
theorem driverKernel_constant {F : Type} [Zero F] [Add F] [Mul F] (a b : F)
    (dimsA dimsB : dim3) (d_C : List F) (hmatch : dimsA.x = dimsB.y)
    (hcA : dimsA.x * dimsA.y < 1073741824) (hcB : dimsB.x * dimsB.y < 1073741824)
    (hcC : dimsA.y * dimsB.x < 1073741824) (hlC : d_C.length = dimsA.y * dimsB.x) :
    matrixMulCPU d_C (List.replicate (dimsA.x * dimsA.y) a)
        (List.replicate (dimsB.x * dimsB.y) b)
        (intOfUInt dimsA.x) (intOfUInt dimsB.x) (intOfUInt dimsA.y) (intOfUInt dimsB.x)
        (intOfUInt dimsA.y)
      = some (List.replicate (dimsA.y * dimsB.x) (accumulate (a * b) dimsA.x)) := by
  by_cases hw : dimsB.x = 0
  · have hnil : d_C = [] := List.eq_nil_of_length_eq_zero (by rw [hlC, hw]; rfl)
    unfold matrixMulCPU
    rw [kernel_zero_width _ _ _ _ _ _ _ _ (by rw [hw]; rfl), hw, hnil]
    rfl
  by_cases hh : dimsA.y = 0
  · have hnil : d_C = [] := List.eq_nil_of_length_eq_zero (by rw [hlC, hh]; simp)
    unfold matrixMulCPU
    rw [kernel_no_rows _ _ _ _ _ _ _ _ (by rw [hh]; rfl), hh, hnil]
    simp
  have hy : 0 < dimsA.y := Nat.pos_of_ne_zero hh
  have hx : 0 < dimsB.x := Nat.pos_of_ne_zero hw
  have b1 : dimsA.x < 1073741824 :=
    lt_of_le_of_lt (Nat.le_mul_of_pos_right _ hy) hcA
  have b2 : dimsA.y < 1073741824 :=
    lt_of_le_of_lt (Nat.le_mul_of_pos_right _ hx) hcC
  have b3 : dimsB.x < 1073741824 :=
    lt_of_le_of_lt (Nat.le_mul_of_pos_left _ hy) hcC
  have e1 : dimsA.x * dimsA.y = dimsA.y * dimsA.x := Nat.mul_comm _ _
  have e2 : dimsB.x * dimsB.y = dimsA.x * dimsB.x := by rw [hmatch]; exact Nat.mul_comm _ _
  rw [intOfUInt_small _ (show dimsA.x < 2147483648 by omega),
    intOfUInt_small _ (show dimsB.x < 2147483648 by omega),
    intOfUInt_small _ (show dimsA.y < 2147483648 by omega), e1, e2]
  exact kernel_constant a b dimsA.y dimsA.x dimsB.x d_C hlC (by omega) (by omega) (by omega)

/-- The whole run when every allocation succeeds, the inner dimensions match, the three
element counts are below `2 ^ 30` and the block size is not zero: `h_C` ends up constant
and the run finishes with the verdict of the check. -/
theorem matrixMultiply_run {F D : Type} [Zero F] [Add F] [Mul F] [Sub F]
    (ar : FloatArith F D) (fA fB fC gA gB gC : Nat → F) (block_size : Int)
    (dimsA dimsB : dim3) (hmatch : dimsA.x = dimsB.y)
    (hcA : dimsA.x * dimsA.y < 1073741824) (hcB : dimsB.x * dimsB.y < 1073741824)
    (hcC : dimsA.y * dimsB.x < 1073741824) (hblock : uintOfInt block_size ≠ 0) :
    ∃ chk,
      checkResult ar
        (List.replicate (dimsA.y * dimsB.x) (accumulate (ar.one * ar.valB) dimsA.x))
        (dimsA.y * dimsB.x) dimsA.x = some chk ∧
      matrixMultiply ar
        { h_A := some fA, h_B := some fB, h_C := some fC,
          d_A := some gA, d_B := some gB, d_C := some gC } block_size dimsA dimsB
        = some (finishedRun ar block_size dimsA dimsB
            (List.replicate (dimsA.y * dimsB.x) (accumulate (ar.one * ar.valB) dimsA.x))
            chk) := by
  obtain ⟨chk, hchk⟩ := checkResult_defined ar
    (List.replicate (dimsA.y * dimsB.x) (accumulate (ar.one * ar.valB) dimsA.x))
    (dimsA.y * dimsB.x) dimsA.x (by simp) (by omega)
  refine ⟨chk, hchk, ?_⟩
  have sA : elemCount dimsA.x dimsA.y = dimsA.x * dimsA.y := elemCount_small _ _ (by omega)
  have sB : elemCount dimsB.x dimsB.y = dimsB.x * dimsB.y := elemCount_small _ _ (by omega)
  have sC : elemCount dimsA.y dimsB.x = dimsA.y * dimsB.x := elemCount_small _ _ (by omega)
  have mA := memSize_small _ hcA
  have mB := memSize_small _ hcB
  have mC := memSize_small _ hcC
  simp only [matrixMultiply, mallocBuf_some]
  rw [constantInit_host (some fA) _ _ ar.one (by rw [sA]; exact hcA) rfl, Option.some_bind,
    constantInit_host (some fB) _ _ ar.valB (by rw [sB]; exact hcB) rfl, Option.some_bind]
  simp only [benchmark, sA, sB, sC]
  rw [memcpy_full _ _ _ (by simp [mA]) (by simp [mA]), Option.some_bind,
    memcpy_full _ _ _ (by simp [mB]) (by simp [mB]), Option.some_bind, if_neg hblock,
    repeatKernel_once _ _ _ _ _ _ _ _ nIter (by decide),
    driverKernel_constant ar.one ar.valB dimsA dimsB _ hmatch hcA hcB hcC (by simp [mC]),
    Option.some_bind,
    memcpy_full _ _ _ (by simp [mC]) (by simp [mC]), Option.some_bind, hchk,
    Option.some_bind]

/-- A defined run in which every allocation succeeded went through the check and finished
with its verdict. -/
theorem matrixMultiply_finished {F D : Type} [Zero F] [Add F] [Mul F] [Sub F]
    (ar : FloatArith F D) (fA fB fC gA gB gC : Nat → F) (block_size : Int)
    (dimsA dimsB : dim3) (r : Run F)
    (h : matrixMultiply ar
      { h_A := some fA, h_B := some fB, h_C := some fC,
        d_A := some gA, d_B := some gB, d_C := some gC } block_size dimsA dimsB = some r) :
    ∃ h_C chk, checkResult ar h_C (elemCount dimsA.y dimsB.x) dimsA.x = some chk ∧
      r = finishedRun ar block_size dimsA dimsB h_C chk := by
  simp only [matrixMultiply, mallocBuf_some, benchmark, Option.bind_eq_some] at h
  obtain ⟨_, _, _, _, _, _, _, _, h⟩ := h
  by_cases hb : uintOfInt block_size = 0
  · rw [if_pos hb] at h; exact absurd h (by simp)
  · rw [if_neg hb] at h
    simp only [Option.bind_eq_some] at h
    obtain ⟨_, _, h_C, _, chk, hchk, hr⟩ := h
    exact ⟨h_C, chk, hchk, (Option.some.inj hr).symm⟩

/-! ## Claim C5 : the exit status is the verdict of the check -/

/-- C5 (amended): when all allocations succeed, every defined run of `matrixMultiply` has
read every output element `h_C[i]`, `i < size_C`, and returns 0 if and only if the test
`rel_err > eps` of the source is false for every one of them (an element whose `rel_err`
is not a number does not exceed the tolerance); otherwise it returns 1, and every element
that exceeds the tolerance has its `Error!` line, whatever came before it. The run is
defined when the inner dimensions match, the three element counts are below `2 ^ 30` and
the block size is not zero. -/
theorem check_decides_status {F D : Type} [Zero F] [Add F] [Mul F] [Sub F]
    (ar : FloatArith F D) (fA fB fC gA gB gC : Nat → F) (block_size : Int)
    (dimsA dimsB : dim3) :
    (∀ r, matrixMultiply ar
        { h_A := some fA, h_B := some fB, h_C := some fC,
          d_A := some gA, d_B := some gB, d_C := some gC } block_size dimsA dimsB = some r →
      (∀ i : Nat, i < elemCount dimsA.y dimsB.x → ∃ c, r.result[i]? = some c) ∧
      (r.status = 0 ↔ ∀ (i : Nat) (c : F), i < elemCount dimsA.y dimsB.x →
        r.result[i]? = some c → exceedsTolerance ar dimsA.x c = false) ∧
      (r.status = 0 ∨ r.status = 1) ∧
      ((∃ (i : Nat) (c : F), i < elemCount dimsA.y dimsB.x ∧ r.result[i]? = some c ∧
        exceedsTolerance ar dimsA.x c = true) → r.status = 1) ∧
      (∀ (i : Nat) (c : F), i < elemCount dimsA.y dimsB.x → r.result[i]? = some c →
        exceedsTolerance ar dimsA.x c = true →
        Event.mismatch i c (ar.ofUInt dimsA.x * ar.valB) ∈ r.events) ∧
      r.checked = elemCount dimsA.y dimsB.x) ∧
    (dimsA.x = dimsB.y → dimsA.x * dimsA.y < 1073741824 → dimsB.x * dimsB.y < 1073741824 →
      dimsA.y * dimsB.x < 1073741824 → uintOfInt block_size ≠ 0 →
      ∃ r, matrixMultiply ar
        { h_A := some fA, h_B := some fB, h_C := some fC,
          d_A := some gA, d_B := some gB, d_C := some gC } block_size dimsA dimsB = some r) := by
  constructor
  · intro r hr
    obtain ⟨h_C, ⟨evs, ok⟩, hchk, rfl⟩ :=
      matrixMultiply_finished ar fA fB fC gA gB gC block_size dimsA dimsB r hr
    obtain ⟨hread, hok, hin, _⟩ := checkResult_partial ar h_C _ _ _ hchk
    simp only at hok hin
    have hst : (finishedRun ar block_size dimsA dimsB h_C (evs, ok)).status = 0 ↔ ok = true := by
      cases ok <;> simp [finishedRun, EXIT_SUCCESS, EXIT_FAILURE]
    have hst1 : ok = false →
        (finishedRun ar block_size dimsA dimsB h_C (evs, ok)).status = 1 := by
      intro h; subst h; rfl
    refine ⟨hread, hst.trans hok, ?_, ?_, ?_, rfl⟩
    · cases ok
      · exact Or.inr rfl
      · exact Or.inl rfl
    · rintro ⟨i, c, hi, hc, hex⟩
      apply hst1
      cases hk : ok
      · rfl
      · have := hok.mp hk i c hi hc
        rw [hex] at this
        exact absurd this (by simp)
    · intro i c hi hc hex
      have := hin i c hi hc hex
      simp only [finishedRun, List.mem_append]
      exact Or.inl (Or.inr this)
  · intro hmatch hcA hcB hcC hblock
    obtain ⟨chk, _, hrun⟩ := matrixMultiply_run ar fA fB fC gA gB gC block_size dimsA dimsB
      hmatch hcA hcB hcC hblock
    exact ⟨_, hrun⟩

/-- C5 (witness): on a 2 x 2 by 2 x 2 product the run is defined and its status is 0 or 1. -/
theorem check_decides_status_witness :
    ∃ r, matrixMultiply (exactArith (1 / 100)) (heapAll (fun _ => 0)) 32
        { x := 2, y := 2, z := 0 } { x := 2, y := 2, z := 0 } = some r ∧
      (r.status = 0 ∨ r.status = 1) ∧ r.checked = elemCount 2 2 := by
  have h := check_decides_status (exactArith (1 / 100)) (fun _ => 0) (fun _ => 0)
    (fun _ => 0) (fun _ => 0) (fun _ => 0) (fun _ => 0) 32
    { x := 2, y := 2, z := 0 } { x := 2, y := 2, z := 0 }
  obtain ⟨r, hr⟩ := h.2 (by decide) (by decide) (by decide) (by decide) (by decide)
  obtain ⟨_, _, h3, _, _, h6⟩ := h.1 r hr
  exact ⟨r, hr, h3, h6⟩

/-- The check of a single element `0` against the reference `0 * valB` with a dot length
of `0`: `rel_err` is `0 / 0 / 0`, not a number, and the test `rel_err > eps` is false. -/
theorem checkResult_zero_dims :
    checkResult (exactArith (1 / 100)) [0] 1 0 = some ([], true) := by
  simp [checkResult, forLoop, checkStep, intChecked, readAt, exceedsTolerance, exactArith,
    XReal.fabs, XReal.div, XReal.gt, INT_MIN, INT_MAX]

/-- C5 (counterexample): `dimsA = (0, 1)`, `dimsB = (1, 0)`, every allocation succeeding.
The run returns 0, yet its only output element `h_C[0] = 0` does not satisfy
`|h_C[0] - dimsA.x * valB| / |h_C[0]| / dimsA.x <= 1e-6`: the left-hand side is `0 / 0 / 0`,
not a number. -/
theorem nan_element_passes :
    ∃ r, matrixMultiply (exactArith (1 / 100)) (heapAll (fun _ => 0)) 32
        { x := 0, y := 1, z := 0 } { x := 1, y := 0, z := 0 } = some r ∧
      r.status = 0 ∧ elemCount 1 1 = 1 ∧ r.result = [0] ∧
      relErr (exactArith (1 / 100)) 0 (0 : ℚ) = XReal.nan ∧
      XReal.le (relErr (exactArith (1 / 100)) 0 (0 : ℚ)) (exactArith (1 / 100)).eps = false := by
  obtain ⟨chk, hchk, hrun⟩ := matrixMultiply_run (exactArith (1 / 100)) (fun _ => 0)
    (fun _ => 0) (fun _ => 0) (fun _ => 0) (fun _ => 0) (fun _ => 0) 32
    { x := 0, y := 1, z := 0 } { x := 1, y := 0, z := 0 }
    (by decide) (by decide) (by decide) (by decide) (by decide)
  have e : List.replicate (1 * 1) (accumulate ((exactArith (1 / 100)).one *
      (exactArith (1 / 100)).valB) 0) = [0] := by
    simp [accumulate]
  simp only [e] at hchk hrun
  rw [show (1 * 1 : Nat) = 1 from rfl, checkResult_zero_dims] at hchk
  cases hchk
  have hnan : relErr (exactArith (1 / 100)) 0 (0 : ℚ) = XReal.nan := by
    simp [relErr, exactArith, XReal.fabs, XReal.div]
  refine ⟨_, hrun, rfl, by decide, rfl, hnan, ?_⟩
  rw [hnan]; rfl

/-! ## Claim C6 : sensitivity of the check -/

/-- A loop whose last iteration is undefined in every state is undefined. -/
theorem forLoop_last_none {σ : Type} (body : Nat → σ → Option σ) :
    ∀ (n lo : Nat) (s : σ), (∀ t, body (lo + n) t = none) →
      forLoop body (n + 1) lo s = none := by
  intro n
  induction n with
  | zero =>
    intro lo s h
    have h' : body lo s = none := h s
    rw [forLoop_succ, h']; rfl
  | succ n ih =>
    intro lo s h
    rw [forLoop_succ]
    cases body lo s with
    | none => rfl
    | some t =>
      rw [Option.some_bind]
      exact ih (lo + 1) t (fun u => by
        have e : lo + 1 + n = lo + (n + 1) := by omega
        rw [e]; exact h u)

/-- The check of `2 ^ 31` elements is undefined: the `int` counter is incremented past
`INT_MAX` at the end of the last iteration. -/
theorem checkResult_counter_overflow {F D : Type} [Sub F] [Mul F] (ar : FloatArith F D)
    (h_C : List F) (dimsAx : Nat) :
    checkResult ar h_C 2147483648 dimsAx = none := by
  unfold checkResult
  apply forLoop_last_none (checkStep ar h_C dimsAx) 2147483647 0
  intro t
  have e1 : intChecked (((0 + 2147483647 : Nat) : Int)) = some 2147483647 := by
    simp [intChecked, INT_MIN, INT_MAX]
  have e2 : intChecked ((2147483647 : Int) + 1) = none := by
    simp [intChecked, INT_MIN, INT_MAX]
  unfold checkStep
  rw [e1, Option.some_bind]
  cases readAt h_C 2147483647 with
  | none => rfl
  | some c => rw [Option.some_bind, e2]; rfl

/-- The elements of an output that holds `v` everywhere except `x` at index `p`. -/
theorem perturbed_elements {F : Type} (v x : F) (size p k : Nat) (c : F)
    (h : ((List.replicate size v).set p x)[k]? = some c) :
    (k = p ∧ c = x) ∨ c = v := by
  rw [List.getElem?_set] at h
  by_cases e : p = k
  · rw [if_pos e] at h
    by_cases hk : p < (List.replicate size v).length
    · rw [if_pos hk] at h
      exact Or.inl ⟨e.symm, (Option.some.inj h).symm⟩
    · rw [if_neg hk] at h; exact absurd h (by simp)
  · rw [if_neg e, List.getElem?_replicate] at h
    by_cases hk : k < size
    · rw [if_pos hk] at h; exact Or.inr (Option.some.inj h).symm
    · rw [if_neg hk] at h; exact absurd h (by simp)

/-- The verdict of the check on an output that holds `v` everywhere except `x` at index
`p`, when `v` itself passes the test: it is a failure exactly when `x` fails the test. -/
theorem perturbed_check {F D : Type} [Sub F] [Mul F] (ar : FloatArith F D) (v x : F)
    (n size p : Nat) (hp : p < size) (hsz : size ≤ 2147483647)
    (hv : exceedsTolerance ar n v = false) :
    ∃ evs ok,
      checkResult ar ((List.replicate size v).set p x) size n = some (evs, ok) ∧
      (ok = false ↔ exceedsTolerance ar n x = true) := by
  obtain ⟨⟨evs, ok⟩, ht⟩ := checkResult_defined ar ((List.replicate size v).set p x) size n
    (by simp) hsz
  refine ⟨evs, ok, ht, ?_⟩
  obtain ⟨_, hok, _, _⟩ := checkResult_partial _ _ _ _ _ ht
  simp only at hok
  constructor
  · intro hf
    cases hx : exceedsTolerance ar n x
    · exfalso
      have : ok = true := by
        apply hok.mpr
        intro k c _ hc
        rcases perturbed_elements v x size p k c hc with ⟨_, rfl⟩ | rfl
        · exact hx
        · exact hv
      rw [hf] at this
      exact absurd this (by simp)
    · rfl
  · intro hx
    cases hk : ok
    · rfl
    · have := hok.mp hk p x hp (by rw [List.getElem?_set]; simp [hp])
      rw [hx] at this
      exact absurd this (by simp)

/-- C6 (amended): for the check with dot length `n` on an output of `size <= INT_MAX`
elements that all equal the expected value `v = n * valB`, `v` itself passing the test (the
unperturbed output passes), replacing the element of index `p` by `x` (`x = v + d`) leaves
the check defined and makes the verdict a failure if and only if the source's own test
`|x - v| / |x| / n > eps`, evaluated in the program's arithmetic, is true for `x`; the
`Error!` line of index `p` is then printed, and no other line ever is. The test is
normalised by the perturbed value `|x|`, not by `|v|`. Holds for every interpretation of
the `float` and `double` operations. -/
theorem perturbation_threshold {F D : Type} [Sub F] [Mul F] (ar : FloatArith F D) (x : F)
    (n size p : Nat) (hp : p < size) (hsz : size ≤ 2147483647)
    (hv : exceedsTolerance ar n (ar.ofUInt n * ar.valB) = false) :
    ∃ evs ok,
      checkResult ar ((List.replicate size (ar.ofUInt n * ar.valB)).set p x) size n
        = some (evs, ok) ∧
      (ok = false ↔ exceedsTolerance ar n x = true) ∧
      (exceedsTolerance ar n x = true →
        Event.mismatch p x (ar.ofUInt n * ar.valB) ∈ evs) ∧
      (∀ e ∈ evs, e = Event.mismatch p x (ar.ofUInt n * ar.valB)) := by
  obtain ⟨⟨evs, ok⟩, ht⟩ := checkResult_defined ar
    ((List.replicate size (ar.ofUInt n * ar.valB)).set p x) size n (by simp) hsz
  obtain ⟨_, hok, hin, hall⟩ := checkResult_partial _ _ _ _ _ ht
  simp only at hok hin hall
  have hpx : ((List.replicate size (ar.ofUInt n * ar.valB)).set p x)[p]? = some x := by
    rw [List.getElem?_set]; simp [hp]
  refine ⟨evs, ok, ht, ⟨?_, ?_⟩, fun hx => hin p x hp hpx hx, ?_⟩
  · intro hf
    cases hx : exceedsTolerance ar n x
    · exfalso
      have : ok = true := by
        apply hok.mpr
        intro k c _ hc
        rcases perturbed_elements _ x size p k c hc with ⟨_, rfl⟩ | rfl
        · exact hx
        · exact hv
      rw [hf] at this
      exact absurd this (by simp)
    · rfl
  · intro hx
    cases hk : ok
    · rfl
    · have := hok.mp hk p x hp hpx
      rw [hx] at this
      exact absurd this (by simp)
  · intro e he
    obtain ⟨k, c, rfl, _, hc, hex⟩ := hall e he
    rcases perturbed_elements _ x size p k c hc with ⟨rfl, rfl⟩ | rfl
    · rfl
    · rw [hv] at hex; exact absurd hex (by simp)

set_option maxRecDepth 20000 in
/-- The test of the check, under IEEE 754 arithmetic with `n = 320`, on the reference value
`v = 320 * 0.01f = 13421772 * 2^-22` and on `v` raised by 4296 and 4297, lowered by 4293
and 4294 units in the last place. -/
theorem exceedsTolerance_ieee_perturbed :
    ieeeArith.ofUInt 320 * ieeeArith.valB = (⟨some ⟨false, 13421772, -22⟩⟩ : F32) ∧
    exceedsTolerance ieeeArith 320 (⟨some ⟨false, 13421772, -22⟩⟩ : F32) = false ∧
    exceedsTolerance ieeeArith 320 (⟨some ⟨false, 13426068, -22⟩⟩ : F32) = false ∧
    exceedsTolerance ieeeArith 320 (⟨some ⟨false, 13426069, -22⟩⟩ : F32) = true ∧
    exceedsTolerance ieeeArith 320 (⟨some ⟨false, 13417479, -22⟩⟩ : F32) = false ∧
    exceedsTolerance ieeeArith 320 (⟨some ⟨false, 13417478, -22⟩⟩ : F32) = true := by
  decide

/-- C6 (witness): the default check (`n = 320`, 204800 elements) under IEEE 754
arithmetic. Raising the first element by 4297 units in the last place of `v` makes the
verdict a failure, raising it by 4296 does not. -/
theorem perturbation_threshold_witness :
    (∃ evs,
      checkResult ieeeArith
        ((List.replicate 204800 (ieeeArith.ofUInt 320 * ieeeArith.valB)).set 0
          (⟨some ⟨false, 13426069, -22⟩⟩ : F32)) 204800 320 = some (evs, false)) ∧
    (∃ evs,
      checkResult ieeeArith
        ((List.replicate 204800 (ieeeArith.ofUInt 320 * ieeeArith.valB)).set 0
          (⟨some ⟨false, 13426068, -22⟩⟩ : F32)) 204800 320 = some (evs, true)) := by
  have hv : exceedsTolerance ieeeArith 320 (ieeeArith.ofUInt 320 * ieeeArith.valB) = false := by
    rw [exceedsTolerance_ieee_perturbed.1]; exact exceedsTolerance_ieee_perturbed.2.1
  constructor
  · obtain ⟨evs, ok, hrun, hok, _, _⟩ := perturbation_threshold ieeeArith
      (⟨some ⟨false, 13426069, -22⟩⟩ : F32) 320 204800 0 (by decide) (by decide) hv
    have : ok = false := hok.mpr exceedsTolerance_ieee_perturbed.2.2.2.1
    rw [this] at hrun
    exact ⟨evs, hrun⟩
  · obtain ⟨evs, ok, hrun, hok, _, _⟩ := perturbation_threshold ieeeArith
      (⟨some ⟨false, 13426068, -22⟩⟩ : F32) 320 204800 0 (by decide) (by decide) hv
    cases ok
    · have := hok.mp rfl
      rw [exceedsTolerance_ieee_perturbed.2.2.1] at this
      exact absurd this (by simp)
    · exact ⟨evs, hrun⟩

/-- C6 (counterexample): the default check (`n = 320`, 204800 elements, `v = 320 * 0.01f`
`= 13421772 * 2^-22`) under IEEE 754 arithmetic, with the claimed threshold
`1e-6 * |v| * n`, about 4294.97 units in the last place of `v`. Raising the first element
by `d` = 4296 units is more than the claimed threshold, yet the verdict stays a pass;
lowering it by 4294 units is less than the claimed threshold, yet the verdict is a
failure. -/
theorem perturbation_claimed_threshold_fails :
    ieeeArith.ofUInt 320 * ieeeArith.valB = (⟨some ⟨false, 13421772, -22⟩⟩ : F32) ∧
    ((1 / 1000000 : ℚ) * |Fp.toRat ⟨false, 13421772, -22⟩| * ((320 : Nat) : ℚ)
        < |Fp.toRat ⟨false, 13426068, -22⟩ - Fp.toRat ⟨false, 13421772, -22⟩| ∧
      ∃ evs,
        checkResult ieeeArith
          ((List.replicate 204800 (⟨some ⟨false, 13421772, -22⟩⟩ : F32)).set 0
            ⟨some ⟨false, 13426068, -22⟩⟩) 204800 320
          = some (evs, true)) ∧
    (|Fp.toRat ⟨false, 13417478, -22⟩ - Fp.toRat ⟨false, 13421772, -22⟩|
        < (1 / 1000000 : ℚ) * |Fp.toRat ⟨false, 13421772, -22⟩| * ((320 : Nat) : ℚ) ∧
      ∃ evs,
        checkResult ieeeArith
          ((List.replicate 204800 (⟨some ⟨false, 13421772, -22⟩⟩ : F32)).set 0
            ⟨some ⟨false, 13417478, -22⟩⟩) 204800 320
          = some (evs, false)) := by
  refine ⟨exceedsTolerance_ieee_perturbed.1, ⟨?_, ?_⟩, ⟨?_, ?_⟩⟩
  · norm_num [Fp.toRat, abs_of_pos]
  · obtain ⟨evs, ok, hrun, hok⟩ := perturbed_check ieeeArith
      (⟨some ⟨false, 13421772, -22⟩⟩ : F32) (⟨some ⟨false, 13426068, -22⟩⟩ : F32)
      320 204800 0 (by decide) (by decide) exceedsTolerance_ieee_perturbed.2.1
    refine ⟨evs, ?_⟩
    cases ok
    · exfalso
      have := hok.mp rfl
      rw [exceedsTolerance_ieee_perturbed.2.2.1] at this
      exact absurd this (by simp)
    · exact hrun
  · norm_num [Fp.toRat, abs_of_pos, abs_of_neg]
  · obtain ⟨evs, ok, hrun, hok⟩ := perturbed_check ieeeArith
      (⟨some ⟨false, 13421772, -22⟩⟩ : F32) (⟨some ⟨false, 13417478, -22⟩⟩ : F32)
      320 204800 0 (by decide) (by decide) exceedsTolerance_ieee_perturbed.2.1
    have : ok = false := hok.mpr exceedsTolerance_ieee_perturbed.2.2.2.2.2
    rw [this] at hrun
    exact ⟨evs, hrun⟩

/-! ## Claim C9 : the default run -/

/-- The check passes, printing no `Error!` line, on an output whose elements all equal a
value that does not exceed the tolerance. -/
theorem checkResult_constant {F D : Type} [Sub F] [Mul F] (ar : FloatArith F D)
    (x : F) (size n : Nat) (hsz : size ≤ 2147483647)
    (hx : exceedsTolerance ar n x = false) :
    checkResult ar (List.replicate size x) size n = some ([], true) := by
  obtain ⟨⟨evs, ok⟩, ht⟩ := checkResult_defined ar (List.replicate size x) size n
    (by simp) hsz
  obtain ⟨_, hok, _, hall⟩ := checkResult_partial _ _ _ _ _ ht
  simp only at hok hall
  have helem : ∀ (k : Nat) (c : F), (List.replicate size x)[k]? = some c → c = x := by
    intro k c hc
    rw [List.getElem?_replicate] at hc
    by_cases hk : k < size
    · rw [if_pos hk] at hc; exact (Option.some.inj hc).symm
    · rw [if_neg hk] at hc; exact absurd hc (by simp)
  have h1 : ok = true := hok.mpr (fun k c _ hc => by rw [helem k c hc]; exact hx)
  have h2 : evs = [] := by
    apply List.eq_nil_iff_forall_not_mem.mpr
    intro e he
    obtain ⟨k, c, _, _, hc, hex⟩ := hall e he
    rw [helem k c hc, hx] at hex
    exact absurd hex (by simp)
  rw [ht, h1, h2]

set_option maxRecDepth 20000 in
/-- The single-precision running sum of 320 copies of `1.0f * 0.01f`. -/
theorem accumulate_default :
    accumulate (ieeeArith.one * ieeeArith.valB) 320
      = (⟨some ⟨false, 13421762, -22⟩⟩ : F32) := by
  decide

set_option maxRecDepth 20000 in
/-- The quantity `rel_err` of the default run, and the outcome of its test. -/
theorem relErr_default :
    relErr ieeeArith 320 (⟨some ⟨false, 13421762, -22⟩⟩ : F32)
      = (⟨some ⟨false, 5629504064065085, -81⟩⟩ : F64) ∧
    exceedsTolerance ieeeArith 320 (⟨some ⟨false, 13421762, -22⟩⟩ : F32) = false := by
  decide

set_option maxRecDepth 20000 in
/-- The reference value `dimsA.x * valB` of the default run and the `float` nearest
to 3.2. -/
theorem reference_default :
    ieeeArith.ofUInt 320 * ieeeArith.valB = (⟨some ⟨false, 13421772, -22⟩⟩ : F32) ∧
    F32.literal 32 10 = (⟨some ⟨false, 13421773, -22⟩⟩ : F32) := by
  decide

/-- The default run in an arithmetic in which the running sum `x` of 320 copies of
`1.0f * 0.01f` passes the test of the check. -/
theorem main_run {F D : Type} [Zero F] [Add F] [Mul F] [Sub F]
    (ar : FloatArith F D) (fA fB fC gA gB gC : Nat → F)
    (hx : exceedsTolerance ar 320 (accumulate (ar.one * ar.valB) 320) = false) :
    main ar { h_A := some fA, h_B := some fB, h_C := some fC,
              d_A := some gA, d_B := some gB, d_C := some gC }
      = some
        { events :=
            [Event.out "[Matrix Multiply Using CPU] - Starting...\n",
             Event.out "MatrixA(320,320), MatrixB(640,320)\n",
             Event.out "Allocating device memory on host...\n",
             Event.out "Copying input data\n",
             Event.out "Computing result using CPU...\n",
             Event.out "done\n",
             Event.out "Copying output data\n",
             Event.perf 1024,
             Event.out "Checking computed result for correctness: ",
             Event.out "Result = PASS\n",
             Event.out "shutting down...\n"],
          kernelCalls := 300,
          checked := 204800,
          result := List.replicate 204800 (accumulate (ar.one * ar.valB) 320),
          status := 0 } := by
  obtain ⟨chk, hchk, hrun⟩ := matrixMultiply_run ar fA fB fC gA gB gC mainBlockSize
    mainDimsA mainDimsB (by decide) (by decide) (by decide) (by decide) (by decide)
  have e1 : mainDimsA.y * mainDimsB.x = 204800 := by decide
  have e2 : mainDimsA.x = 320 := by decide
  rw [e1, e2] at hchk
  rw [e1, e2] at hrun
  rw [checkResult_constant ar _ 204800 320 (by decide) hx] at hchk
  cases hchk
  unfold main
  rw [hrun]
  rfl

/-- C9 (amended): under IEEE 754 single and double precision arithmetic, the default run
(block size 32, `A` = 320 x 320 filled with `1.0f`, `B` = 640 x 320 filled with `0.01f`,
every allocation succeeding) is defined, its output has exactly 204800 elements, every
element equals the single-precision running sum `6710881 / 2097152 = 3.19999742...` of 320
copies of `0.01f` (which is not 3.2), the quantity
`|h_C[i] - 320 * valB| / |h_C[i]| / 320` of every element is at most `1e-6`, no `Error!`
line is printed, and the run prints `Result = PASS` and returns 0. -/
theorem default_run_passes (fA fB fC gA gB gC : Nat → F32) :
    ∃ r, main ieeeArith { h_A := some fA, h_B := some fB, h_C := some fC,
                          d_A := some gA, d_B := some gB, d_C := some gC } = some r ∧
      r.result.length = 204800 ∧
      (∀ c ∈ r.result, c = (⟨some ⟨false, 13421762, -22⟩⟩ : F32)) ∧
      Fp.toRat ⟨false, 13421762, -22⟩ = 6710881 / 2097152 ∧
      (∀ c ∈ r.result,
        relErr ieeeArith 320 c = (⟨some ⟨false, 5629504064065085, -81⟩⟩ : F64) ∧
        exceedsTolerance ieeeArith 320 c = false) ∧
      Fp.toRat ⟨false, 5629504064065085, -81⟩ ≤ 1 / 1000000 ∧
      (∀ (i : Nat) (a b : F32), Event.mismatch i a b ∉ r.events) ∧
      Event.out "Result = PASS\n" ∈ r.events ∧
      Event.out "Result = FAIL\n" ∉ r.events ∧
      r.kernelCalls = 300 ∧ r.checked = 204800 ∧ r.status = 0 := by
  have hx : exceedsTolerance ieeeArith 320 (accumulate (ieeeArith.one * ieeeArith.valB) 320)
      = false := by
    rw [accumulate_default]; exact relErr_default.2
  refine ⟨_, main_run ieeeArith fA fB fC gA gB gC hx, ?_, ?_, ?_, ?_, ?_, ?_, ?_, ?_,
    rfl, rfl, rfl⟩
  · exact List.length_replicate _ _
  · intro c hc
    rw [accumulate_default] at hc
    exact List.eq_of_mem_replicate hc
  · norm_num [Fp.toRat]
  · intro c hc
    rw [accumulate_default] at hc
    rw [List.eq_of_mem_replicate hc]
    exact relErr_default
  · norm_num [Fp.toRat]
  · intro i a b h
    simp only [List.mem_cons, List.mem_singleton, reduceCtorEq, or_self, List.not_mem_nil] at h
  · simp only [List.mem_cons, List.mem_singleton, reduceCtorEq, Event.out.injEq,
      String.reduceEq, or_true, or_false, true_or, false_or]
  · simp only [List.mem_cons, List.mem_singleton, reduceCtorEq, Event.out.injEq,
      String.reduceEq, or_self, not_false_eq_true, List.not_mem_nil]

/-- C9 (counterexample): in the default run under IEEE 754 arithmetic the first output
element is `6710881 / 2097152`: it is not 3.2, nor the `float` nearest to 3.2, nor the
reference value `320 * 0.01f` the check compares it with. -/
theorem default_run_element_is_not_exact :
    ∃ r x, main ieeeArith (heapAll (fun _ => 0)) = some r ∧
      r.result[0]? = some (⟨some x⟩ : F32) ∧
      Fp.toRat x = 6710881 / 2097152 ∧ Fp.toRat x ≠ 32 / 10 ∧
      (⟨some x⟩ : F32) ≠ F32.literal 32 10 ∧
      (⟨some x⟩ : F32) ≠ ieeeArith.ofUInt 320 * ieeeArith.valB := by
  have hx : exceedsTolerance ieeeArith 320 (accumulate (ieeeArith.one * ieeeArith.valB) 320)
      = false := by
    rw [accumulate_default]; exact relErr_default.2
  refine ⟨_, ⟨false, 13421762, -22⟩,
    main_run ieeeArith (fun _ => 0) (fun _ => 0) (fun _ => 0) (fun _ => 0) (fun _ => 0)
      (fun _ => 0) hx, ?_, ?_, ?_, ?_, ?_⟩
  · rw [accumulate_default]
    exact List.getElem?_replicate_of_lt (by decide)
  · norm_num [Fp.toRat]
  · norm_num [Fp.toRat]
  · rw [reference_default.2]; decide
  · rw [reference_default.1]; decide

end MatrixMul
